import Mathlib

/-!
Verification development for the scheduling-session core of a gang-capable
GPU scheduler (KAI-Scheduler fork).  The embedding covers the GPU-sharing
allocation path of `pkg/scheduler/gpu_sharing/gpuSharing.go` and the
fitting/ordering/eviction functions of `pkg/scheduler/framework/session.go`,
together with the node resource model those functions depend on.  Resource
dimensions other than GPUs and per-GPU memory (CPU, main memory) are not
touched by any of the verified properties and are omitted from the model.
Node-info construction and accounting, the statement layer and the gang
admission policy are not part of the given sources; their definitions below
are modelled from the specification and marked as such.  Plugin scores
(float64 in the source) are modelled as integers: only their ordering is
relevant to the verified properties.  Go map iteration is modelled by the
explicit order of association lists.
-/

/-- Sentinel placed in the fitting list for an unallocated whole-GPU slot
(`pod_info.WholeGpuIndicator` in the source). -/
def WholeGpuIndicator : String := "-2"

/-- Association list from GPU-group id to MiB, the model of the Go maps
`map[string]int64` used for per-group VRAM accounting. -/
abbrev GroupMem := List (String × Nat)

/-- Value of a group in a VRAM map; absent groups read as 0, as a Go map does. -/
def lookupMem (m : GroupMem) (g : String) : Nat :=
  match m.find? (fun p => p.1 == g) with
  | some p => p.2
  | none => 0

/-- Add `v` MiB to group `g`, creating the entry when absent (Go `m[g] += v`). -/
def bumpMem (m : GroupMem) (g : String) (v : Nat) : GroupMem :=
  match m with
  | [] => [(g, v)]
  | (g2, v2) :: rest => if g2 = g then (g2, v2 + v) :: rest else (g2, v2) :: bumpMem rest g v

/-- Keys of a VRAM map. -/
def memKeys (m : GroupMem) : List String := m.map Prod.fst

/-- Total MiB recorded in a VRAM map. -/
def sumMem (m : GroupMem) : Nat := (m.map Prod.snd).sum

/-- Number of groups holding a non-zero amount of memory. -/
def activeCount (m : GroupMem) : Nat := (m.filter (fun p => !(p.2 == 0))).length

/-- Scheduling state of one node (`node_info.NodeInfo`), restricted to the
fields read or written by the verified operations: idle/releasing whole-GPU
counts, the three per-group VRAM maps, the per-GPU memory capacity read from
the `gpu.memory` label, and the physical GPU count read from the `gpu.count`
label. -/
structure NodeInfo where
  name : String
  idleGpus : Nat
  releasingGpus : Nat
  usedSharedGPUsMemory : GroupMem
  allocatedSharedGPUsMemory : GroupMem
  releasingSharedGPUsMemory : GroupMem
  memoryOfEveryGpuOnNode : Nat
  physicalGPUCount : Nat
deriving DecidableEq

/-- Schedulable unit (`pod_info.PodInfo`), restricted to the fields the
verified operations read: per-GPU memory request (MiB), requested number of
GPU devices, owning pod-group id, node assignment and the shared-GPU group
set (`nil` in Go is `none` here). -/
structure PodInfo where
  name : String
  job : String
  nodeName : String
  gpuMemory : Nat
  numGpuDevices : Nat
  gpuGroups : Option (List String)
deriving DecidableEq

/-- Modelled from the spec: `node_info` group helper "all-released" — every
MiB used on the group is already releasing (the source file
`gpu_sharing_node_info.go` is not part of the given sources). -/
def isAllGpuMemoryReleased (n : NodeInfo) (g : String) : Bool :=
  decide (lookupMem n.usedSharedGPUsMemory g ≤ lookupMem n.releasingSharedGPUsMemory g)

/-- Modelled from the spec: `node_info.IsTaskFitOnGpuGroup` — fit on a group
is "UsedMemory ≠ 0 AND total − allocated + releasing ≥ request AND NOT
all-released" (spec §4.3); the inequality is written additively to stay in ℕ. -/
def isTaskFitOnGpuGroup (n : NodeInfo) (reqMem : Nat) (g : String) : Bool :=
  (!(lookupMem n.usedSharedGPUsMemory g == 0)) &&
  decide (lookupMem n.allocatedSharedGPUsMemory g + reqMem ≤
          n.memoryOfEveryGpuOnNode + lookupMem n.releasingSharedGPUsMemory g) &&
  (!(isAllGpuMemoryReleased n g))

/-- Modelled from the spec: `node_info.EnoughIdleResourcesOnGpu` — enough
non-releasing headroom on the group: total − allocated ≥ request. -/
def enoughIdleResourcesOnGpu (n : NodeInfo) (reqMem : Nat) (g : String) : Bool :=
  decide (lookupMem n.allocatedSharedGPUsMemory g + reqMem ≤ n.memoryOfEveryGpuOnNode)

/-- Modelled from the spec: `node_info.IsTaskAllocatable` for a fractional
task — the request fits the node's idle resources.  A fractional task
occupies a slice of one GPU, so the binding requirement on the GPU dimension
is that its per-GPU memory request fits a GPU of this node (spec §8
invariant 6); tenancy on an existing group needs no idle whole GPU (spec
Scenario A allocates tenants 2..4 with zero idle whole GPUs). -/
def isTaskAllocatable (n : NodeInfo) (pod : PodInfo) : Bool :=
  decide (pod.gpuMemory ≤ n.memoryOfEveryGpuOnNode)

/-- Embeds `filterGpusByEnoughResources` (session.go:175-202): every shared
group that fits the request, in map-enumeration order, followed by one
`WholeGpuIndicator` per idle-or-releasing whole GPU. -/
def filterGpusByEnoughResources (n : NodeInfo) (pod : PodInfo) : List String :=
  let filtered := (memKeys n.usedSharedGPUsMemory).filter
    (fun g => isTaskFitOnGpuGroup n pod.gpuMemory g)
  if 0 < n.idleGpus ∨ 0 < n.releasingGpus then
    filtered ++ List.replicate (n.idleGpus + n.releasingGpus) WholeGpuIndicator
  else
    filtered

/-- Insert one candidate into the score-keyed bucket map
(`gpuScores[score] = append(gpuScores[score], gpuIdx)` in session.go). -/
def bucketInsert {α : Type} (s : Int) (a : α) : List (Int × List α) → List (Int × List α)
  | [] => [(s, [a])]
  | (k, xs) :: rest => if k = s then (k, xs ++ [a]) :: rest else (k, xs) :: bucketInsert s a rest

/-- Left-to-right accumulation of candidates into score buckets. -/
def buildBucketsAux {α : Type} (key : α → Int) :
    List (Int × List α) → List α → List (Int × List α)
  | b, [] => b
  | b, a :: rest => buildBucketsAux key (bucketInsert (key a) a b) rest

/-- Bucket a candidate list by score, keeping encounter order inside each
bucket, as the Go maps `map[float64][]string` / `map[float64][]*NodeInfo` do. -/
def buildBuckets {α : Type} (key : α → Int) (l : List α) : List (Int × List α) :=
  buildBucketsAux key [] l

/-- Bucket contents for one score (empty when the score is absent). -/
def lookupBucket {α : Type} (b : List (Int × List α)) (s : Int) : List α :=
  match b.find? (fun p => p.1 == s) with
  | some p => p.2
  | none => []

/-- Insertion step of the sorts in session.go, generic in a boolean
comparator (`le x y` = "x may come before y"). -/
def insertSorted {α : Type} (le : α → α → Bool) (x : α) : List α → List α
  | [] => [x]
  | y :: ys => if le x y then x :: y :: ys else y :: insertSorted le x ys

/-- Comparison sort used to model `sort.Sort` / `sort.Slice` calls. -/
def sortByLe {α : Type} (le : α → α → Bool) (l : List α) : List α :=
  l.foldr (insertSorted le) []

/-- Scores sorted descending (`sort.Sort (sort.Reverse (sort.Float64Slice ...))`). -/
def sortDescInt (l : List Int) : List Int :=
  sortByLe (fun a b => decide (b ≤ a)) l

/-- Emit buckets in descending score order, applying `f` to each bucket;
`sortGPUs` uses `f := id`, `sortNodesByScore` uses the by-name sort. -/
def emitDesc {α : Type} (f : List α → List α) (b : List (Int × List α)) : List α :=
  (sortDescInt (b.map Prod.fst)).flatMap (fun s => f (lookupBucket b s))

/-- Embeds `sortGPUs` (session.go:504-515): collect the scores, sort them
descending and concatenate the buckets. -/
def sortGPUs (gpuScores : List (Int × List String)) : List String :=
  emitDesc id gpuScores

/-- Embeds `Session.sortGPUs` (session.go:204-218): score every filtered
candidate with the GPU-order plugins (`score`), bucket, emit descending. -/
def sessionSortGPUs (score : String → Int) (filteredGPUs : List String) : List String :=
  sortGPUs (buildBuckets score filteredGPUs)

/-- Embeds `Session.FittingGPUs` (session.go:168-173). -/
def fittingGPUs (score : String → Int) (n : NodeInfo) (pod : PodInfo) : List String :=
  sessionSortGPUs score (filterGpusByEnoughResources n pod)

/-- Embeds `sortNodesByName` (session.go:497-502). -/
def sortNodesByName (nodes : List NodeInfo) : List NodeInfo :=
  sortByLe (fun a b => decide (a.name ≤ b.name)) nodes

/-- Embeds `sortNodesByScore` (session.go:483-495): buckets in descending
score order, each bucket sorted by node name. -/
def sortNodesByScore (nodeScores : List (Int × List NodeInfo)) : List NodeInfo :=
  emitDesc sortNodesByName nodeScores

/-- Embeds `Session.OrderedNodesByTask` (session.go:253-283).  The pre-order
hooks and the scoring plugins are collaborators; their combined result is the
`score` function, gathered here in list order (the Go code gathers in
goroutine-completion order, which only permutes bucket contents that
`sortNodesByName` re-sorts anyway). -/
def orderedNodesByTask (score : NodeInfo → Int) (nodes : List NodeInfo) : List NodeInfo :=
  sortNodesByScore (buildBuckets score nodes)

/-- Result of the fractional-GPU selection (`nodeGpuForSharing` in
gpuSharing.go). -/
structure NodeGpuForSharing where
  groups : List String
  isReleasing : Bool
deriving DecidableEq

/-- Embeds `findGpuForSharingOnNode` (gpuSharing.go:103-111).  The uuid mint
is modelled by the `freshId` argument. -/
def findGpuForSharingOnNode (pod : PodInfo) (n : NodeInfo) (isPipelineOnly : Bool)
    (freshId : String) : NodeGpuForSharing :=
  { groups := [freshId]
  , isReleasing := !(!isPipelineOnly && isTaskAllocatable n pod) }

/-- Embeds the walk of `getNodePreferableGpuForSharing` (gpuSharing.go:57-101).
`supply k` models the uuid minted for the k-th whole-GPU indicator processed. -/
def getNodePreferableGpuForSharingAux (n : NodeInfo) (pod : PodInfo) (isPipelineOnly : Bool)
    (supply : Nat → String) :
    List String → Nat → NodeGpuForSharing → Option NodeGpuForSharing
  | [], _, _ => none
  | gpuIdx :: rest, k, acc =>
    if gpuIdx = WholeGpuIndicator then
      let w := findGpuForSharingOnNode pod n isPipelineOnly (supply k)
      let acc2 : NodeGpuForSharing :=
        ⟨acc.groups ++ w.groups, acc.isReleasing || w.isReleasing⟩
      if acc2.groups.length = pod.numGpuDevices then some acc2
      else getNodePreferableGpuForSharingAux n pod isPipelineOnly supply rest (k + 1) acc2
    else
      let gpuIsReleasing :=
        !(enoughIdleResourcesOnGpu n pod.gpuMemory gpuIdx) || !(isTaskAllocatable n pod)
      let acc2 : NodeGpuForSharing :=
        ⟨acc.groups ++ [gpuIdx], acc.isReleasing || gpuIsReleasing⟩
      if acc2.groups.length = pod.numGpuDevices then some acc2
      else getNodePreferableGpuForSharingAux n pod isPipelineOnly supply rest k acc2

/-- Embeds `getNodePreferableGpuForSharing` (gpuSharing.go:57-101). -/
def getNodePreferableGpuForSharing (fittingGPUsOnNode : List String) (n : NodeInfo)
    (pod : PodInfo) (isPipelineOnly : Bool) (supply : Nat → String) :
    Option NodeGpuForSharing :=
  getNodePreferableGpuForSharingAux n pod isPipelineOnly supply fittingGPUsOnNode 0
    ⟨[], false⟩

/-- Modelled from the spec: the node-accounting effect of allocating one
fractional tenant on one GPU group (`gpu_sharing_node_info.go` is not part of
the given sources).  The group's used and allocated VRAM grow by the request;
the idle whole-GPU count is decremented exactly when the first tenant of a
new group is assigned (spec §9 "the decrement of Idle.GPUs only occurs when
the first tenant of a new group is assigned"). -/
def addSharedTaskToGroup (n : NodeInfo) (reqMem : Nat) (g : String) : NodeInfo :=
  let firstTenant := lookupMem n.usedSharedGPUsMemory g == 0
  { n with
    usedSharedGPUsMemory := bumpMem n.usedSharedGPUsMemory g reqMem
    allocatedSharedGPUsMemory := bumpMem n.allocatedSharedGPUsMemory g reqMem
    idleGpus := if firstTenant then n.idleGpus - 1 else n.idleGpus }

/-- Modelled from the spec: node accounting of `Statement.Allocate` for a
fractional task — every selected group receives one tenant. -/
def allocateTaskOnNode (n : NodeInfo) (pod : PodInfo) : NodeInfo :=
  (pod.gpuGroups.getD []).foldl (fun m g => addSharedTaskToGroup m pod.gpuMemory g) n

/-- Modelled from the spec: the statement's record of tentative operations
(`framework.Statement` is not part of the given sources).  Only the operation
log matters to the verified properties. -/
structure Statement where
  allocations : List (String × String)
  pipelines : List (String × String)
deriving DecidableEq

/-- Modelled from the spec: `Statement.Allocate` records the pair and errors
when the task is already allocated (spec §8 idempotence law: "applying the
same allocate to an already-allocated (task, node) pair is a no-op error"). -/
def stmtAllocate (st : Statement) (pod : PodInfo) (nodeName : String) : Option Statement :=
  if (st.allocations.map Prod.fst).contains pod.name then none
  else some { st with allocations := st.allocations ++ [(pod.name, nodeName)] }

/-- Modelled from the spec: `Statement.Pipeline` records the task as reserved
for a later cycle; it is not bound now and the node's allocated VRAM maps are
untouched (spec §4.4 "not actually bound this cycle"). -/
def stmtPipeline (st : Statement) (pod : PodInfo) (nodeName : String) : Option Statement :=
  some { st with pipelines := st.pipelines ++ [(pod.name, nodeName)] }

/-- Embeds `allocateSharedGPUTask` (gpuSharing.go:113-136): pipeline when
`isPipelineOnly`, otherwise allocate; either statement operation may fail, in
which case nothing is recorded and the node is unchanged. -/
def allocateSharedGPUTask (st : Statement) (n : NodeInfo) (task : PodInfo)
    (isPipelineOnly : Bool) : Bool × Statement × NodeInfo :=
  if isPipelineOnly then
    match stmtPipeline st task n.name with
    | some st2 => (true, st2, n)
    | none => (false, st, n)
  else
    match stmtAllocate st task n.name with
    | some st2 => (true, st2, allocateTaskOnNode n task)
    | none => (false, st, n)

/-- Outcome of `AllocateFractionalGPUTaskToNode`: success flag plus the pod,
statement and node as left by the call. -/
structure FractionalAllocResult where
  success : Bool
  pod : PodInfo
  stmt : Statement
  node : NodeInfo
deriving DecidableEq

/-- Embeds `AllocateFractionalGPUTaskToNode` (gpuSharing.go:20-55).  `score`
stands for the session's registered GPU-order plugins, `supply` for the uuid
mints. -/
def allocateFractionalGPUTaskToNode (score : String → Int) (st : Statement)
    (pod : PodInfo) (n : NodeInfo) (isPipelineOnly : Bool) (supply : Nat → String) :
    FractionalAllocResult :=
  match getNodePreferableGpuForSharing (fittingGPUs score n pod) n pod isPipelineOnly supply with
  | none => ⟨false, pod, st, n⟩
  | some gpuForSharing =>
    let pod2 : PodInfo := { pod with gpuGroups := some gpuForSharing.groups }
    let pipe := isPipelineOnly || gpuForSharing.isReleasing
    let out := allocateSharedGPUTask st n pod2 pipe
    if out.1 then ⟨true, pod2, out.2.1, out.2.2⟩
    else ⟨false, { pod2 with gpuGroups := none }, out.2.1, out.2.2⟩

/-- Modelled from the spec: node-info construction (spec §4.1 rules 1-4 and
§3 time-slicing correction; `node_info.NewNodeInfo` is not part of the given
sources).  The snapshot is taken with no running fractional pods, so the
VRAM maps start empty; the physical GPU count falls back to the allocatable
count when the `gpu.count` label is absent; idle whole GPUs are clamped to
the physical count when `allocatable > physical > 0`. -/
def newNodeInfo (name : String) (allocatableGpus : Nat) (gpuCountLabel : Option Nat)
    (gpuMemoryLabel : Nat) : NodeInfo :=
  let physical := gpuCountLabel.getD allocatableGpus
  { name := name
  , idleGpus := if physical < allocatableGpus ∧ 0 < physical then physical else allocatableGpus
  , releasingGpus := 0
  , usedSharedGPUsMemory := []
  , allocatedSharedGPUsMemory := []
  , releasingSharedGPUsMemory := []
  , memoryOfEveryGpuOnNode := gpuMemoryLabel
  , physicalGPUCount := physical }

/-- Session state touched by `Session.Evict` (session.go:132-155): the set of
known pod-group ids and node names, and logs of the externally visible
effects — cache evictions, pod status updates, node-accounting updates and
deallocate events fired at the registered handlers. -/
structure SessionState where
  podGroupIds : List String
  nodeNames : List String
  cacheEvictLog : List String
  podStatusLog : List (String × String)
  nodeUpdateLog : List String
  deallocateLog : List String
deriving DecidableEq

/-- Embeds `Session.Evict` (session.go:132-155): look the pod-group up first
and error without any effect when it is missing; otherwise evict in the
cache, move the pod to Releasing, update the node (erroring there when the
pod's node is unknown, after the first two effects) and fire the deallocate
handlers.  The collaborator calls are modelled as log appends. -/
def sessionEvict (s : SessionState) (pod : PodInfo) : Option String × SessionState :=
  if s.podGroupIds.contains pod.job then
    let s1 := { s with cacheEvictLog := s.cacheEvictLog ++ [pod.name] }
    let s2 := { s1 with podStatusLog := s1.podStatusLog ++ [(pod.name, "Releasing")] }
    if s2.nodeNames.contains pod.nodeName then
      let s3 := { s2 with nodeUpdateLog := s2.nodeUpdateLog ++ [pod.name] }
      (none, { s3 with deallocateLog := s3.deallocateLog ++ [pod.name] })
    else
      (some "node doesnt exist on cluster", s2)
  else
    (some "could not evict pod without podGroup", s)

/-- Modelled from the spec: the cluster-visible bindings a statement mutates
(spec §4.5); the gang-admission sources are not part of the given sources. -/
structure ClusterState where
  bound : List (String × String)
deriving DecidableEq

/-- Modelled from the spec: one recorded statement operation (only successful
allocations/pipelines matter to gang admission). -/
inductive GangOp where
  | assign (task : String) (node : String)
deriving DecidableEq

/-- Modelled from the spec: applying one recorded operation to the cluster
state. -/
def applyGangOp (st : ClusterState) : GangOp → ClusterState
  | .assign t nd => { bound := st.bound ++ [(t, nd)] }

/-- Modelled from the spec: undoing one recorded operation (statements record
enough inverse metadata to undo on discard, spec §3/§4.5). -/
def undoGangOp (st : ClusterState) : GangOp → ClusterState
  | .assign t nd =>
    if st.bound.getLast? = some (t, nd) then { bound := st.bound.dropLast } else st

/-- Modelled from the spec: `Statement.Discard` undoes the recorded
operations in reverse order (spec §5 ordering guarantees). -/
def discardGangOps (st : ClusterState) (ops : List GangOp) : ClusterState :=
  ops.reverse.foldl undoGangOp st

/-- Modelled from the spec: the allocator's attempt over a gang — try every
task (the collaborator `place` says on which node a task's allocation or
pipeline succeeds this cycle), applying each success to the cluster state and
recording it in the statement. -/
def tryAllocGang (st : ClusterState) (tasks : List String)
    (place : String → Option String) : ClusterState × List GangOp :=
  tasks.foldl
    (fun acc t =>
      match place t with
      | some nd => (applyGangOp acc.1 (.assign t nd), acc.2 ++ [GangOp.assign t nd])
      | none => acc)
    (st, [])

/-- Modelled from the spec: gang admission (spec §4.6) — commit the statement
when at least `minMember` allocations/pipelines were recorded for the gang's
tasks, otherwise discard it. -/
def gangSchedule (st : ClusterState) (minMember : Nat) (tasks : List String)
    (place : String → Option String) : ClusterState :=
  let attempt := tryAllocGang st tasks place
  if minMember ≤ attempt.2.length then attempt.1 else discardGangOps attempt.1 attempt.2

/-- Concrete node for the tie-break counterexample: two fitting shared groups
enumerated in the order "b", "a", both scoring equally. -/
def c3Node : NodeInfo :=
  { name := "n"
  , idleGpus := 0
  , releasingGpus := 0
  , usedSharedGPUsMemory := [("b", 8000), ("a", 8000)]
  , allocatedSharedGPUsMemory := [("b", 8000), ("a", 8000)]
  , releasingSharedGPUsMemory := []
  , memoryOfEveryGpuOnNode := 32600
  , physicalGPUCount := 2 }

/-- Concrete pod requesting 8000 MiB on one GPU device. -/
def c3Pod : PodInfo :=
  { name := "p", job := "j", nodeName := "n", gpuMemory := 8000, numGpuDevices := 1
  , gpuGroups := none }

/-- Position map of the selection walk: the k-th whole-GPU indicator is
replaced by the k-th minted uuid, real group ids pass through.  This is the
list of groups the walk of `getNodePreferableGpuForSharing` accumulates. -/
def mintMap (supply : Nat → String) : Nat → List String → List String
  | _, [] => []
  | k, e :: rest =>
    if e = WholeGpuIndicator then supply k :: mintMap supply (k + 1) rest
    else e :: mintMap supply k rest

/-- Releasing flag the walk of `getNodePreferableGpuForSharing` computes for
one fitting-list entry. -/
def entryReleasing (n : NodeInfo) (pod : PodInfo) (isPipelineOnly : Bool)
    (e : String) : Bool :=
  if e = WholeGpuIndicator then !(!isPipelineOnly && isTaskAllocatable n pod)
  else !(enoughIdleResourcesOnGpu n pod.gpuMemory e) || !(isTaskAllocatable n pod)

/-- Node states reachable by the scheduler's allocation operations: a node as
constructed for the snapshot (with a well-formed `gpu.count` label: absent,
or present and positive), then any sequence of fractional-GPU allocation
calls.  A uuid supply is injective and mints ids that are neither the
whole-GPU sentinel nor a group already holding memory on the node. -/
inductive ReachableNode : NodeInfo → Prop where
  | init (name : String) (allocatableGpus : Nat) (gpuCountLabel : Option Nat)
      (gpuMemoryLabel : Nat)
      (hlabel : ∀ v, gpuCountLabel = some v → 0 < v) :
      ReachableNode (newNodeInfo name allocatableGpus gpuCountLabel gpuMemoryLabel)
  | step (n : NodeInfo) (score : String → Int) (st : Statement) (pod : PodInfo)
      (isPipelineOnly : Bool) (supply : Nat → String)
      (hreach : ReachableNode n)
      (hinj : ∀ i j, supply i = supply j → i = j)
      (hfresh : ∀ i, lookupMem n.usedSharedGPUsMemory (supply i) = 0)
      (hnotWgi : ∀ i, supply i ≠ WholeGpuIndicator) :
      ReachableNode (allocateFractionalGPUTaskToNode score st pod n isPipelineOnly supply).node

/-- Concrete pod requesting zero GPU devices. -/
def c4Pod : PodInfo :=
  { name := "p", job := "j", nodeName := "n", gpuMemory := 8000, numGpuDevices := 0
  , gpuGroups := none }

/-- Concrete injective uuid supply. -/
def c4Supply : Nat → String := fun k => "m" ++ Nat.repr k

/-- Concrete freshly constructed node: one physical GPU advertised once. -/
def c5Node : NodeInfo := newNodeInfo "n5" 1 (some 1) 32600

/-- Selection produced on `c5Node` for `c3Pod`: one freshly minted group. -/
def c5Sel : NodeGpuForSharing := ⟨["m0"], false⟩

/-- Concrete node with no shared groups and no idle or releasing GPUs. -/
def c10Node : NodeInfo :=
  { name := "n10"
  , idleGpus := 0
  , releasingGpus := 0
  , usedSharedGPUsMemory := []
  , allocatedSharedGPUsMemory := []
  , releasingSharedGPUsMemory := []
  , memoryOfEveryGpuOnNode := 32600
  , physicalGPUCount := 1 }

/-- Concrete pod that carries a stale non-empty GPUGroups value. -/
def c10Pod : PodInfo :=
  { name := "p10", job := "j", nodeName := "n10", gpuMemory := 8000, numGpuDevices := 1
  , gpuGroups := some ["old"] }

/-- Scenario-A uuid supply. -/
def c2Supply : Nat → String := fun k => "uuid-" ++ Nat.repr k

/-- Scenario-A node: 100 advertised devices backed by 1 physical 32600 MiB GPU. -/
def c2Node0 : NodeInfo := newNodeInfo "node" 100 (some 1) 32600

/-- Scenario-A pods: each requests gpu-memory 8000 MiB on one device. -/
def c2Pod (i : Nat) : PodInfo :=
  { name := "pod" ++ Nat.repr i, job := "job", nodeName := "node"
  , gpuMemory := 8000, numGpuDevices := 1, gpuGroups := none }

/-- Scenario-A GPU-order plugin: constant score. -/
def c2Score : String → Int := fun _ => 0

/-- Scenario-A: result of scheduling pod 1. -/
def c2R1 : FractionalAllocResult :=
  allocateFractionalGPUTaskToNode c2Score ⟨[], []⟩ (c2Pod 1) c2Node0 false c2Supply

/-- Scenario-A: result of scheduling pod 2. -/
def c2R2 : FractionalAllocResult :=
  allocateFractionalGPUTaskToNode c2Score c2R1.stmt (c2Pod 2) c2R1.node false c2Supply

/-- Scenario-A: result of scheduling pod 3. -/
def c2R3 : FractionalAllocResult :=
  allocateFractionalGPUTaskToNode c2Score c2R2.stmt (c2Pod 3) c2R2.node false c2Supply

/-- Scenario-A: result of scheduling pod 4. -/
def c2R4 : FractionalAllocResult :=
  allocateFractionalGPUTaskToNode c2Score c2R3.stmt (c2Pod 4) c2R3.node false c2Supply

/-- Scenario-A: result of scheduling pod 5. -/
def c2R5 : FractionalAllocResult :=
  allocateFractionalGPUTaskToNode c2Score c2R4.stmt (c2Pod 5) c2R4.node false c2Supply

/-- Session with one pod-group "jobA" and one node. -/
def c9Session : SessionState :=
  { podGroupIds := ["jobA"], nodeNames := ["node"], cacheEvictLog := []
  , podStatusLog := [], nodeUpdateLog := [], deallocateLog := [] }

/-- Task-to-binding pairs the allocator can place this cycle (successes of
the collaborator placement function, in task order). -/
def placedPairs (tasks : List String) (place : String → Option String) :
    List (String × String) :=
  tasks.filterMap (fun t => (place t).map (fun nd => (t, nd)))

/-- Concrete gang placement: tasks "A" and "B" fit, "C" does not. -/
def c7Place : String → Option String :=
  fun t => if t = "A" ∨ t = "B" then some "node" else none

/-- Inductive well-formedness of a node's shared-GPU accounting, maintained
by the allocation operations: the allocated and used maps coincide (nothing
is releasing in reachable states), every group holds at most one GPU's
worth of memory, group ids are unique and never the whole-GPU sentinel, and
the idle whole-GPU count plus the number of populated groups never exceeds
the physical GPU count. -/
structure NodeInv (n : NodeInfo) : Prop where
  allocEqUsed : n.allocatedSharedGPUsMemory = n.usedSharedGPUsMemory
  relMapNil : n.releasingSharedGPUsMemory = []
  relGpusZero : n.releasingGpus = 0
  valuesLe : ∀ p ∈ n.usedSharedGPUsMemory, p.2 ≤ n.memoryOfEveryGpuOnNode
  keysNodup : (memKeys n.usedSharedGPUsMemory).Nodup
  noWgiKey : ∀ p ∈ n.usedSharedGPUsMemory, p.1 ≠ WholeGpuIndicator
  idleBound : n.idleGpus + activeCount n.usedSharedGPUsMemory ≤ n.physicalGPUCount

/-- Injective uuid supply for the reachability witness: the i-th uuid is the
string of i+1 letters u. -/
def c1Supply : Nat → String := fun k => String.mk (List.replicate (k + 1) 'u')

/-- One fractional allocation applied to a freshly constructed time-sliced
node (100 advertised devices, 1 physical GPU, 32600 MiB). -/
def c1Node1 : NodeInfo :=
  (allocateFractionalGPUTaskToNode c2Score ⟨[], []⟩ (c2Pod 1)
    (newNodeInfo "c1n" 100 (some 1) 32600) false c1Supply).node

/-! Characterization of the fractional-GPU selection walk. -/

theorem findGpuForSharingOnNode_groups (pod : PodInfo) (n : NodeInfo) (pipe : Bool)
    (s : String) : (findGpuForSharingOnNode pod n pipe s).groups = [s] := rfl

theorem findGpuForSharingOnNode_isReleasing (pod : PodInfo) (n : NodeInfo) (pipe : Bool)
    (s : String) : (findGpuForSharingOnNode pod n pipe s).isReleasing =
      !(!pipe && isTaskAllocatable n pod) := rfl

theorem entryReleasing_wgi (n : NodeInfo) (pod : PodInfo) (pipe : Bool) (e : String)
    (he : e = WholeGpuIndicator) :
    entryReleasing n pod pipe e = !(!pipe && isTaskAllocatable n pod) := by
  rw [entryReleasing, if_pos he]

theorem entryReleasing_real (n : NodeInfo) (pod : PodInfo) (pipe : Bool) (e : String)
    (he : ¬ e = WholeGpuIndicator) :
    entryReleasing n pod pipe e =
      (!(enoughIdleResourcesOnGpu n pod.gpuMemory e) || !(isTaskAllocatable n pod)) := by
  rw [entryReleasing, if_neg he]

theorem aux_spec (n : NodeInfo) (pod : PodInfo) (pipe : Bool) (supply : Nat → String) :
    ∀ (l : List String) (k : Nat) (acc : NodeGpuForSharing),
    acc.groups.length < pod.numGpuDevices →
    getNodePreferableGpuForSharingAux n pod pipe supply l k acc =
      (if pod.numGpuDevices ≤ acc.groups.length + l.length then
        some ⟨acc.groups ++
                (mintMap supply k l).take (pod.numGpuDevices - acc.groups.length),
              acc.isReleasing ||
                ((l.take (pod.numGpuDevices - acc.groups.length)).any
                  (entryReleasing n pod pipe))⟩
      else none) := by
  intro l
  induction l with
  | nil =>
    intro k acc hlt
    rw [if_neg (by simp only [List.length_nil, Nat.add_zero]; omega)]
    rfl
  | cons e rest ih =>
    intro k acc hlt
    by_cases he : e = WholeGpuIndicator
    · simp only [getNodePreferableGpuForSharingAux, if_pos he,
        findGpuForSharingOnNode_groups, findGpuForSharingOnNode_isReleasing]
      have hlen : (acc.groups ++ [supply k]).length = acc.groups.length + 1 := by simp
      by_cases hN : acc.groups.length + 1 = pod.numGpuDevices
      · rw [if_pos (by rw [hlen]; exact hN)]
        rw [if_pos (by simp only [List.length_cons]; omega)]
        have ht : pod.numGpuDevices - acc.groups.length = 1 := by omega
        rw [ht]
        simp only [mintMap, if_pos he, List.take_succ_cons, List.take_zero,
          List.any_cons, List.any_nil, List.append_nil,
          entryReleasing_wgi n pod pipe e he, Bool.or_false]
      · rw [if_neg (by rw [hlen]; exact hN)]
        have hlt2 : (acc.groups ++ [supply k]).length < pod.numGpuDevices := by
          rw [hlen]; omega
        rw [ih (k + 1) _ hlt2, hlen]
        have hsub : pod.numGpuDevices - acc.groups.length =
            (pod.numGpuDevices - (acc.groups.length + 1)) + 1 := by omega
        by_cases hc : pod.numGpuDevices ≤ acc.groups.length + (e :: rest).length
        · rw [if_pos (by simp only [List.length_cons] at hc ⊢; omega), if_pos hc, hsub]
          simp only [mintMap, if_pos he, List.take_succ_cons, List.any_cons,
            entryReleasing_wgi n pod pipe e he, List.append_assoc,
            List.singleton_append, Bool.or_assoc]
        · rw [if_neg (by simp only [List.length_cons] at hc ⊢; omega), if_neg hc]
    · simp only [getNodePreferableGpuForSharingAux, if_neg he]
      have hlen : (acc.groups ++ [e]).length = acc.groups.length + 1 := by simp
      by_cases hN : acc.groups.length + 1 = pod.numGpuDevices
      · rw [if_pos (by rw [hlen]; exact hN)]
        rw [if_pos (by simp only [List.length_cons]; omega)]
        have ht : pod.numGpuDevices - acc.groups.length = 1 := by omega
        rw [ht]
        simp only [mintMap, if_neg he, List.take_succ_cons, List.take_zero,
          List.any_cons, List.any_nil, List.append_nil,
          entryReleasing_real n pod pipe e he, Bool.or_false]
      · rw [if_neg (by rw [hlen]; exact hN)]
        have hlt2 : (acc.groups ++ [e]).length < pod.numGpuDevices := by
          rw [hlen]; omega
        rw [ih k _ hlt2, hlen]
        have hsub : pod.numGpuDevices - acc.groups.length =
            (pod.numGpuDevices - (acc.groups.length + 1)) + 1 := by omega
        by_cases hc : pod.numGpuDevices ≤ acc.groups.length + (e :: rest).length
        · rw [if_pos (by simp only [List.length_cons] at hc ⊢; omega), if_pos hc, hsub]
          simp only [mintMap, if_neg he, List.take_succ_cons, List.any_cons,
            entryReleasing_real n pod pipe e he, List.append_assoc,
            List.singleton_append, Bool.or_assoc]
        · rw [if_neg (by simp only [List.length_cons] at hc ⊢; omega), if_neg hc]

theorem getNodePreferableGpuForSharing_spec (fitting : List String) (n : NodeInfo)
    (pod : PodInfo) (pipe : Bool) (supply : Nat → String)
    (hpos : 1 ≤ pod.numGpuDevices) :
    getNodePreferableGpuForSharing fitting n pod pipe supply =
      (if pod.numGpuDevices ≤ fitting.length then
        some ⟨(mintMap supply 0 fitting).take pod.numGpuDevices,
              (fitting.take pod.numGpuDevices).any (entryReleasing n pod pipe)⟩
      else none) := by
  rw [getNodePreferableGpuForSharing, aux_spec n pod pipe supply fitting 0 ⟨[], false⟩
    (by simpa using hpos)]
  simp only [List.length_nil, Nat.zero_add, List.nil_append, Nat.sub_zero,
    Bool.false_or]

theorem getNodePreferableGpuForSharing_zero_devices (fitting : List String)
    (n : NodeInfo) (pod : PodInfo) (pipe : Bool) (supply : Nat → String)
    (h0 : pod.numGpuDevices = 0) :
    getNodePreferableGpuForSharing fitting n pod pipe supply = none := by
  rw [getNodePreferableGpuForSharing]
  suffices h : ∀ (l : List String) (k : Nat) (acc : NodeGpuForSharing),
      getNodePreferableGpuForSharingAux n pod pipe supply l k acc = none by
    exact h fitting 0 ⟨[], false⟩
  intro l
  induction l with
  | nil => intro k acc; rfl
  | cons e rest ih =>
    intro k acc
    by_cases he : e = WholeGpuIndicator
    · simp only [getNodePreferableGpuForSharingAux, if_pos he,
        findGpuForSharingOnNode_groups]
      rw [if_neg (by simp [h0]), ih]
    · simp only [getNodePreferableGpuForSharingAux, if_neg he]
      rw [if_neg (by simp [h0]), ih]

/-! Helper lemmas about the VRAM association lists. -/

theorem lookupMem_cons (g2 : String) (v2 : Nat) (rest : GroupMem) (g : String) :
    lookupMem ((g2, v2) :: rest) g = if g2 = g then v2 else lookupMem rest g := by
  by_cases h : g2 = g
  · subst h
    simp [lookupMem, List.find?]
  · have hb : (g2 == g) = false := by simpa using h
    simp [lookupMem, List.find?, hb, h]

theorem memKeys_cons (g2 : String) (v2 : Nat) (rest : GroupMem) :
    memKeys ((g2, v2) :: rest) = g2 :: memKeys rest := rfl

theorem sumMem_cons (g2 : String) (v2 : Nat) (rest : GroupMem) :
    sumMem ((g2, v2) :: rest) = v2 + sumMem rest := by
  simp [sumMem]

theorem activeCount_cons (g2 : String) (v2 : Nat) (rest : GroupMem) :
    activeCount ((g2, v2) :: rest) = (if v2 = 0 then 0 else 1) + activeCount rest := by
  simp only [activeCount, List.filter_cons]
  by_cases hz : v2 = 0
  · simp [hz]
  · simp [hz, Nat.add_comm]

theorem lookupMem_eq_zero_of_not_mem (m : GroupMem) (g : String)
    (h : g ∉ memKeys m) : lookupMem m g = 0 := by
  induction m with
  | nil => rfl
  | cons p rest ih =>
    obtain ⟨g2, v2⟩ := p
    rw [memKeys_cons] at h
    rw [lookupMem_cons, if_neg (fun he => h (List.mem_cons.mpr (Or.inl he.symm)))]
    exact ih (fun he => h (List.mem_cons_of_mem _ he))

theorem mem_keys_of_lookupMem_ne_zero (m : GroupMem) (g : String)
    (h : lookupMem m g ≠ 0) : g ∈ memKeys m := by
  by_contra hc
  exact h (lookupMem_eq_zero_of_not_mem m g hc)

theorem lookupMem_bumpMem_self (m : GroupMem) (g : String) (v : Nat) :
    lookupMem (bumpMem m g v) g = lookupMem m g + v := by
  induction m with
  | nil =>
    show lookupMem [(g, v)] g = lookupMem [] g + v
    rw [lookupMem_cons, if_pos rfl]
    simp [lookupMem]
  | cons p rest ih =>
    obtain ⟨g2, v2⟩ := p
    by_cases h : g2 = g
    · simp only [bumpMem, if_pos h]
      rw [lookupMem_cons, lookupMem_cons, if_pos h, if_pos h]
    · simp only [bumpMem, if_neg h]
      rw [lookupMem_cons, lookupMem_cons, if_neg h, if_neg h, ih]

theorem lookupMem_bumpMem_ne (m : GroupMem) (g g2 : String) (v : Nat)
    (h : g2 ≠ g) : lookupMem (bumpMem m g v) g2 = lookupMem m g2 := by
  induction m with
  | nil =>
    show lookupMem [(g, v)] g2 = lookupMem [] g2
    rw [lookupMem_cons, if_neg (fun he => h he.symm)]
  | cons p rest ih =>
    obtain ⟨g3, v3⟩ := p
    by_cases h3 : g3 = g
    · simp only [bumpMem, if_pos h3]
      have hne : g3 ≠ g2 := fun he => h (he ▸ h3)
      rw [lookupMem_cons, lookupMem_cons, if_neg hne, if_neg hne]
    · simp only [bumpMem, if_neg h3]
      rw [lookupMem_cons, lookupMem_cons, ih]

theorem memKeys_bumpMem_of_mem (m : GroupMem) (g : String) (v : Nat)
    (h : g ∈ memKeys m) : memKeys (bumpMem m g v) = memKeys m := by
  induction m with
  | nil => simp [memKeys] at h
  | cons p rest ih =>
    obtain ⟨g2, v2⟩ := p
    by_cases h2 : g2 = g
    · simp only [bumpMem, if_pos h2]
      rw [memKeys_cons, memKeys_cons]
    · simp only [bumpMem, if_neg h2]
      rw [memKeys_cons] at h
      have hrest : g ∈ memKeys rest := by
        rcases List.mem_cons.mp h with he | he
        · exact absurd he.symm h2
        · exact he
      rw [memKeys_cons, memKeys_cons, ih hrest]

theorem memKeys_bumpMem_of_not_mem (m : GroupMem) (g : String) (v : Nat)
    (h : g ∉ memKeys m) : memKeys (bumpMem m g v) = memKeys m ++ [g] := by
  induction m with
  | nil => rfl
  | cons p rest ih =>
    obtain ⟨g2, v2⟩ := p
    rw [memKeys_cons] at h
    have h1 : g2 ≠ g := fun he => h (List.mem_cons.mpr (Or.inl he.symm))
    have h2 : g ∉ memKeys rest := fun he => h (List.mem_cons_of_mem _ he)
    simp only [bumpMem, if_neg h1]
    rw [memKeys_cons, memKeys_cons, ih h2]
    rfl

theorem mem_bumpMem (m : GroupMem) (g : String) (v : Nat) (p : String × Nat)
    (hp : p ∈ bumpMem m g v) : p ∈ m ∨ p = (g, lookupMem m g + v) := by
  induction m with
  | nil =>
    right
    have : p ∈ [(g, v)] := hp
    simp at this
    simp [this, lookupMem]
  | cons q rest ih =>
    obtain ⟨g2, v2⟩ := q
    by_cases h2 : g2 = g
    · subst h2
      simp only [bumpMem, if_pos rfl] at hp
      rcases List.mem_cons.mp hp with h | h
      · right
        rw [h, lookupMem_cons, if_pos rfl]
      · exact Or.inl (List.mem_cons_of_mem _ h)
    · simp only [bumpMem, if_neg h2] at hp
      rcases List.mem_cons.mp hp with h | h
      · exact Or.inl (h ▸ List.mem_cons_self _ _)
      · rcases ih h with h3 | h3
        · exact Or.inl (List.mem_cons_of_mem _ h3)
        · right
          rw [h3, lookupMem_cons, if_neg h2]

theorem activeCount_bumpMem_of_ne_zero (m : GroupMem) (g : String) (v : Nat)
    (h : lookupMem m g ≠ 0) : activeCount (bumpMem m g v) = activeCount m := by
  induction m with
  | nil => exact absurd rfl h
  | cons p rest ih =>
    obtain ⟨g2, v2⟩ := p
    rw [lookupMem_cons] at h
    by_cases h2 : g2 = g
    · rw [if_pos h2] at h
      simp only [bumpMem, if_pos h2]
      rw [activeCount_cons, activeCount_cons, if_neg h,
        if_neg (by omega : ¬ v2 + v = 0)]
    · rw [if_neg h2] at h
      simp only [bumpMem, if_neg h2]
      rw [activeCount_cons, activeCount_cons, ih h]

theorem activeCount_bumpMem_of_zero (m : GroupMem) (g : String) (v : Nat)
    (h : lookupMem m g = 0) :
    activeCount (bumpMem m g v) = activeCount m + (if v = 0 then 0 else 1) := by
  induction m with
  | nil =>
    show activeCount [(g, v)] = activeCount [] + _
    rw [activeCount_cons]
    exact Nat.add_comm _ _
  | cons p rest ih =>
    obtain ⟨g2, v2⟩ := p
    rw [lookupMem_cons] at h
    by_cases h2 : g2 = g
    · rw [if_pos h2] at h
      simp only [bumpMem, if_pos h2]
      rw [activeCount_cons, activeCount_cons, h, Nat.zero_add, if_pos rfl,
        Nat.zero_add, Nat.add_comm]
    · rw [if_neg h2] at h
      simp only [bumpMem, if_neg h2]
      rw [activeCount_cons, activeCount_cons, ih h, Nat.add_assoc]

theorem sumMem_le_activeCount_mul (m : GroupMem) (M : Nat)
    (h : ∀ p ∈ m, p.2 ≤ M) : sumMem m ≤ activeCount m * M := by
  induction m with
  | nil => simp [sumMem, activeCount]
  | cons p rest ih =>
    obtain ⟨g2, v2⟩ := p
    have hrest := ih (fun q hq => h q (List.mem_cons_of_mem _ hq))
    have hv : v2 ≤ M := h (g2, v2) (List.mem_cons_self _ _)
    rw [sumMem_cons, activeCount_cons]
    by_cases hz : v2 = 0
    · subst hz
      rw [if_pos rfl, Nat.zero_add, Nat.zero_add]
      exact hrest
    · rw [if_neg hz, Nat.add_mul, Nat.one_mul]
      exact Nat.add_le_add hv hrest

/-! Helper lemmas about the sorting and bucketing machinery. -/

theorem insertSorted_perm {α : Type} (le : α → α → Bool) (x : α) (l : List α) :
    List.Perm (insertSorted le x l) (x :: l) := by
  induction l with
  | nil => exact List.Perm.refl _
  | cons y ys ih =>
    by_cases h : le x y = true
    · simp [insertSorted, h]
    · have hf : le x y = false := by simpa using h
      simp only [insertSorted, hf, Bool.false_eq_true, if_false]
      exact (ih.cons y).trans (List.Perm.swap x y ys)

theorem sortByLe_perm {α : Type} (le : α → α → Bool) (l : List α) :
    List.Perm (sortByLe le l) l := by
  induction l with
  | nil => exact List.Perm.refl _
  | cons x xs ih =>
    show List.Perm (insertSorted le x (sortByLe le xs)) (x :: xs)
    exact (insertSorted_perm le x _).trans (ih.cons x)

theorem pairwise_insertSorted {α : Type} (le : α → α → Bool)
    (htot : ∀ a b, le a b = false → le b a = true)
    (htrans : ∀ a b c, le a b = true → le b c = true → le a c = true)
    (x : α) (l : List α) (h : List.Pairwise (fun a b => le a b = true) l) :
    List.Pairwise (fun a b => le a b = true) (insertSorted le x l) := by
  induction l with
  | nil => simp [insertSorted]
  | cons y ys ih =>
    rcases List.pairwise_cons.mp h with ⟨hy, hys⟩
    by_cases hxy : le x y = true
    · simp only [insertSorted, hxy, if_true]
      refine List.pairwise_cons.mpr ⟨?_, h⟩
      intro z hz
      rcases List.mem_cons.mp hz with hz | hz
      · exact hz ▸ hxy
      · exact htrans x y z hxy (hy z hz)
    · have hf : le x y = false := by simpa using hxy
      simp only [insertSorted, hf, Bool.false_eq_true, if_false]
      refine List.pairwise_cons.mpr ⟨?_, ih hys⟩
      intro z hz
      rcases List.mem_cons.mp ((insertSorted_perm le x ys).mem_iff.mp hz) with hz | hz
      · exact hz ▸ htot x y hf
      · exact hy z hz

theorem pairwise_sortByLe {α : Type} (le : α → α → Bool)
    (htot : ∀ a b, le a b = false → le b a = true)
    (htrans : ∀ a b c, le a b = true → le b c = true → le a c = true)
    (l : List α) : List.Pairwise (fun a b => le a b = true) (sortByLe le l) := by
  induction l with
  | nil => simp [sortByLe]
  | cons x xs ih => exact pairwise_insertSorted le htot htrans x _ ih

theorem sortDescInt_pairwise (l : List Int) :
    List.Pairwise (fun a b => b ≤ a) (sortDescInt l) := by
  have h := pairwise_sortByLe (fun a b : Int => decide (b ≤ a))
    (fun a b hab => by simpa using Int.le_of_lt (by simpa using hab))
    (fun a b c hab hbc => by
      simp only [decide_eq_true_eq] at hab hbc ⊢
      exact hbc.trans hab) l
  exact h.imp (fun hab => by simpa using hab)

theorem lookupBucket_nil {α : Type} (s : Int) :
    lookupBucket ([] : List (Int × List α)) s = [] := rfl

theorem lookupBucket_cons {α : Type} (k : Int) (xs : List α) (rest : List (Int × List α))
    (s : Int) : lookupBucket ((k, xs) :: rest) s = if k = s then xs else lookupBucket rest s := by
  by_cases h : k = s
  · subst h
    simp [lookupBucket, List.find?]
  · have hb : (k == s) = false := by simpa using h
    simp [lookupBucket, List.find?, hb, h]

theorem lookupBucket_bucketInsert_self {α : Type} (s : Int) (a : α)
    (b : List (Int × List α)) :
    lookupBucket (bucketInsert s a b) s = lookupBucket b s ++ [a] := by
  induction b with
  | nil =>
    show lookupBucket [(s, [a])] s = lookupBucket ([] : List (Int × List α)) s ++ [a]
    rw [lookupBucket_cons, if_pos rfl, lookupBucket_nil, List.nil_append]
  | cons p rest ih =>
    obtain ⟨k, xs⟩ := p
    by_cases h : k = s
    · simp only [bucketInsert, if_pos h]
      rw [lookupBucket_cons, lookupBucket_cons, if_pos h, if_pos h]
    · simp only [bucketInsert, if_neg h]
      rw [lookupBucket_cons, lookupBucket_cons, if_neg h, if_neg h, ih]

theorem lookupBucket_bucketInsert_ne {α : Type} (s s2 : Int) (a : α)
    (b : List (Int × List α)) (h : s2 ≠ s) :
    lookupBucket (bucketInsert s a b) s2 = lookupBucket b s2 := by
  induction b with
  | nil =>
    show lookupBucket [(s, [a])] s2 = lookupBucket ([] : List (Int × List α)) s2
    rw [lookupBucket_cons, if_neg (fun he => h he.symm), lookupBucket_nil]
  | cons p rest ih =>
    obtain ⟨k, xs⟩ := p
    by_cases hk : k = s
    · simp only [bucketInsert, if_pos hk]
      have hne : k ≠ s2 := fun he => h (he ▸ hk)
      rw [lookupBucket_cons, lookupBucket_cons, if_neg hne, if_neg hne]
    · simp only [bucketInsert, if_neg hk]
      rw [lookupBucket_cons, lookupBucket_cons, ih]

theorem mem_keys_bucketInsert {α : Type} (s s2 : Int) (a : α) (b : List (Int × List α)) :
    s2 ∈ (bucketInsert s a b).map Prod.fst ↔ s2 ∈ b.map Prod.fst ∨ s2 = s := by
  induction b with
  | nil => simp [bucketInsert]
  | cons p rest ih =>
    obtain ⟨k, xs⟩ := p
    by_cases hk : k = s
    · simp only [bucketInsert, if_pos hk, List.map_cons, List.mem_cons]
      constructor
      · exact fun h => Or.inl h
      · rintro (h | h)
        · exact h
        · exact Or.inl (h.trans hk.symm)
    · simp only [bucketInsert, if_neg hk, List.map_cons, List.mem_cons, ih]
      tauto

theorem nodup_keys_bucketInsert {α : Type} (s : Int) (a : α) (b : List (Int × List α))
    (h : (b.map Prod.fst).Nodup) : ((bucketInsert s a b).map Prod.fst).Nodup := by
  induction b with
  | nil => simp [bucketInsert]
  | cons p rest ih =>
    obtain ⟨k, xs⟩ := p
    simp only [List.map_cons, List.nodup_cons] at h
    by_cases hk : k = s
    · simp only [bucketInsert, if_pos hk, List.map_cons, List.nodup_cons]
      exact h
    · simp only [bucketInsert, if_neg hk, List.map_cons, List.nodup_cons]
      refine ⟨?_, ih h.2⟩
      intro hc
      rcases (mem_keys_bucketInsert s k a rest).mp hc with hc | hc
      · exact h.1 hc
      · exact hk hc

theorem lookupBucket_buildBucketsAux {α : Type} (key : α → Int)
    (b : List (Int × List α)) (l : List α) (s : Int) :
    lookupBucket (buildBucketsAux key b l) s =
      lookupBucket b s ++ l.filter (fun a => key a == s) := by
  induction l generalizing b with
  | nil => simp [buildBucketsAux]
  | cons a rest ih =>
    show lookupBucket (buildBucketsAux key (bucketInsert (key a) a b) rest) s = _
    rw [ih]
    by_cases h : key a = s
    · subst h
      rw [lookupBucket_bucketInsert_self]
      simp [List.filter_cons]
    · rw [lookupBucket_bucketInsert_ne _ _ _ _ (fun he => h he.symm)]
      have hb : (key a == s) = false := by simpa using h
      simp [List.filter_cons, hb]

theorem lookupBucket_buildBuckets {α : Type} (key : α → Int) (l : List α) (s : Int) :
    lookupBucket (buildBuckets key l) s = l.filter (fun a => key a == s) := by
  rw [buildBuckets, lookupBucket_buildBucketsAux, lookupBucket_nil, List.nil_append]

theorem mem_keys_buildBucketsAux {α : Type} (key : α → Int) (b : List (Int × List α))
    (l : List α) (s : Int) :
    s ∈ (buildBucketsAux key b l).map Prod.fst ↔
      s ∈ b.map Prod.fst ∨ ∃ a ∈ l, key a = s := by
  induction l generalizing b with
  | nil => simp [buildBucketsAux]
  | cons a rest ih =>
    show s ∈ (buildBucketsAux key (bucketInsert (key a) a b) rest).map Prod.fst ↔ _
    rw [ih]
    rw [mem_keys_bucketInsert]
    simp only [List.mem_cons]
    constructor
    · rintro ((h | h) | ⟨a2, h2, h3⟩)
      · exact Or.inl h
      · exact Or.inr ⟨a, Or.inl rfl, h.symm⟩
      · exact Or.inr ⟨a2, Or.inr h2, h3⟩
    · rintro (h | ⟨a2, (h2 | h2), h3⟩)
      · exact Or.inl (Or.inl h)
      · exact Or.inl (Or.inr (h2 ▸ h3).symm)
      · exact Or.inr ⟨a2, h2, h3⟩

theorem mem_keys_buildBuckets {α : Type} (key : α → Int) (l : List α) (s : Int) :
    s ∈ (buildBuckets key l).map Prod.fst ↔ ∃ a ∈ l, key a = s := by
  rw [buildBuckets, mem_keys_buildBucketsAux]
  simp

theorem nodup_keys_buildBucketsAux {α : Type} (key : α → Int) (b : List (Int × List α))
    (l : List α) (h : (b.map Prod.fst).Nodup) :
    ((buildBucketsAux key b l).map Prod.fst).Nodup := by
  induction l generalizing b with
  | nil => exact h
  | cons a rest ih =>
    show ((buildBucketsAux key (bucketInsert (key a) a b) rest).map Prod.fst).Nodup
    exact ih _ (nodup_keys_bucketInsert _ _ _ h)

theorem nodup_keys_buildBuckets {α : Type} (key : α → Int) (l : List α) :
    ((buildBuckets key l).map Prod.fst).Nodup :=
  nodup_keys_buildBucketsAux key [] l (by simp)

theorem flatten_bucketInsert_perm {α : Type} (s : Int) (a : α) (b : List (Int × List α)) :
    List.Perm ((bucketInsert s a b).map Prod.snd).flatten
      (((b.map Prod.snd).flatten) ++ [a]) := by
  induction b with
  | nil => simp [bucketInsert]
  | cons p rest ih =>
    obtain ⟨k, xs⟩ := p
    by_cases hk : k = s
    · simp only [bucketInsert, if_pos hk, List.map_cons, List.flatten_cons]
      rw [List.append_assoc, List.append_assoc]
      exact List.Perm.append_left xs (List.perm_append_comm)
    · simp only [bucketInsert, if_neg hk, List.map_cons, List.flatten_cons]
      rw [List.append_assoc]
      exact List.Perm.append_left xs ih

theorem flatten_buildBucketsAux_perm {α : Type} (key : α → Int)
    (b : List (Int × List α)) (l : List α) :
    List.Perm ((buildBucketsAux key b l).map Prod.snd).flatten
      ((b.map Prod.snd).flatten ++ l) := by
  induction l generalizing b with
  | nil => simp [buildBucketsAux]
  | cons a rest ih =>
    show List.Perm ((buildBucketsAux key (bucketInsert (key a) a b) rest).map Prod.snd).flatten _
    refine (ih _).trans ?_
    have h1 := (flatten_bucketInsert_perm (key a) a b).append_right rest
    refine h1.trans ?_
    rw [List.append_assoc, List.singleton_append]

theorem flatten_buildBuckets_perm {α : Type} (key : α → Int) (l : List α) :
    List.Perm ((buildBuckets key l).map Prod.snd).flatten l := by
  have := flatten_buildBucketsAux_perm key [] l
  simpa using this

theorem flatMap_keys_lookupBucket {α : Type} (b : List (Int × List α))
    (hnd : (b.map Prod.fst).Nodup) :
    (b.map Prod.fst).flatMap (fun s => lookupBucket b s) = (b.map Prod.snd).flatten := by
  induction b with
  | nil => rfl
  | cons p rest ih =>
    obtain ⟨k, xs⟩ := p
    simp only [List.map_cons, List.nodup_cons] at hnd
    simp only [List.map_cons, List.flatMap_cons, List.flatten_cons]
    rw [lookupBucket_cons, if_pos rfl]
    congr 1
    rw [← ih hnd.2]
    apply List.flatMap_congr
    intro s hs
    rw [lookupBucket_cons, if_neg]
    intro he
    exact hnd.1 (he ▸ hs)

theorem pairwise_true {α : Type} (l : List α) :
    List.Pairwise (fun _ _ => True) l := by
  induction l with
  | nil => exact List.Pairwise.nil
  | cons a rest ih => exact List.pairwise_cons.mpr ⟨fun _ _ => trivial, ih⟩

theorem flatMap_pairwise {α : Type} (key : α → Int) (r : α → α → Prop)
    (keys : List Int) (Fn : Int → List α)
    (hnd : keys.Nodup) (hsor : List.Pairwise (fun x y : Int => y ≤ x) keys)
    (hscore : ∀ s, ∀ a ∈ Fn s, key a = s)
    (hpair : ∀ s, List.Pairwise r (Fn s)) :
    List.Pairwise (fun a c => key c < key a ∨ (key a = key c ∧ r a c))
      (keys.flatMap Fn) := by
  induction keys with
  | nil => exact List.Pairwise.nil
  | cons s rest ih =>
    simp only [List.nodup_cons] at hnd
    rcases List.pairwise_cons.mp hsor with ⟨hle, hsor2⟩
    rw [List.flatMap_cons]
    rw [List.pairwise_append]
    refine ⟨?_, ih hnd.2 hsor2, ?_⟩
    · refine (hpair s).imp_of_mem ?_
      intro a c ha hc hr
      exact Or.inr ⟨(hscore s a ha).trans (hscore s c hc).symm, hr⟩
    · intro a ha c hc
      rcases List.mem_flatMap.mp hc with ⟨s2, hs2, hc2⟩
      left
      rw [hscore s a ha, hscore s2 c hc2]
      rcases lt_or_gt_of_ne (fun he : s = s2 => hnd.1 (by rw [he]; exact hs2)) with h | h
      · exact absurd h (not_lt.mpr (hle s2 hs2))
      · exact h

theorem filter_flatMap_single {α : Type} (key : α → Int) (keys : List Int)
    (Fn : Int → List α) (hnd : keys.Nodup)
    (hscore : ∀ s, ∀ a ∈ Fn s, key a = s) (s0 : Int) :
    (keys.flatMap Fn).filter (fun a => key a == s0) =
      if s0 ∈ keys then Fn s0 else [] := by
  induction keys with
  | nil => simp
  | cons s rest ih =>
    simp only [List.nodup_cons] at hnd
    rw [List.flatMap_cons, List.filter_append, ih hnd.2]
    by_cases h : s = s0
    · subst h
      have h1 : (Fn s).filter (fun a => key a == s) = Fn s :=
        List.filter_eq_self.mpr (fun a ha => by simp [hscore s a ha])
      rw [h1, if_neg hnd.1, if_pos (List.mem_cons_self _ _), List.append_nil]
    · have h1 : (Fn s).filter (fun a => key a == s0) = [] := by
        rw [List.filter_eq_nil_iff]
        intro a ha
        simp [hscore s a ha, h]
      rw [h1, List.nil_append]
      by_cases h2 : s0 ∈ rest
      · rw [if_pos h2, if_pos (List.mem_cons_of_mem _ h2)]
      · rw [if_neg h2, if_neg (fun hc => by
          rcases List.mem_cons.mp hc with hc | hc
          · exact h hc.symm
          · exact h2 hc)]

/-! Order and permutation facts about the fitting and node-ordering pipelines. -/

theorem emitDesc_perm {α : Type} (f : List α → List α) (key : α → Int) (l : List α)
    (hf : ∀ xs, List.Perm (f xs) xs) :
    List.Perm (emitDesc f (buildBuckets key l)) l := by
  unfold emitDesc
  refine (List.Perm.flatMap_left _ (fun s _ => hf _)).trans ?_
  refine ((sortByLe_perm _ _).flatMap_right _).trans ?_
  rw [flatMap_keys_lookupBucket _ (nodup_keys_buildBuckets key l)]
  exact flatten_buildBuckets_perm key l

theorem emitDesc_pairwise {α : Type} (f : List α → List α) (key : α → Int) (l : List α)
    (r : α → α → Prop)
    (hfmem : ∀ xs (a : α), a ∈ f xs → a ∈ xs)
    (hfpair : ∀ s, List.Pairwise r (f (lookupBucket (buildBuckets key l) s))) :
    List.Pairwise (fun a c => key c < key a ∨ (key a = key c ∧ r a c))
      (emitDesc f (buildBuckets key l)) := by
  unfold emitDesc
  apply flatMap_pairwise key r
  · exact (sortByLe_perm _ _).nodup_iff.mpr (nodup_keys_buildBuckets key l)
  · exact sortDescInt_pairwise _
  · intro s a ha
    have hmem := hfmem _ a ha
    rw [lookupBucket_buildBuckets] at hmem
    have := (List.mem_filter.mp hmem).2
    simpa using this
  · exact hfpair

theorem emitDesc_id_filter {α : Type} (key : α → Int) (l : List α) (s0 : Int) :
    (emitDesc id (buildBuckets key l)).filter (fun a => key a == s0) =
      l.filter (fun a => key a == s0) := by
  have hnd : (sortDescInt ((buildBuckets key l).map Prod.fst)).Nodup :=
    (sortByLe_perm _ _).nodup_iff.mpr (nodup_keys_buildBuckets key l)
  have heq := filter_flatMap_single key (sortDescInt ((buildBuckets key l).map Prod.fst))
    (fun s => id (lookupBucket (buildBuckets key l) s)) hnd
    (fun s a ha => by
      have hmem : a ∈ lookupBucket (buildBuckets key l) s := ha
      rw [lookupBucket_buildBuckets] at hmem
      have := (List.mem_filter.mp hmem).2
      simpa using this) s0
  unfold emitDesc
  rw [heq]
  by_cases h : s0 ∈ sortDescInt ((buildBuckets key l).map Prod.fst)
  · rw [if_pos h]
    exact lookupBucket_buildBuckets key l s0
  · rw [if_neg h]
    symm
    rw [List.filter_eq_nil_iff]
    intro a ha hb
    apply h
    have hmem : s0 ∈ (buildBuckets key l).map Prod.fst :=
      (mem_keys_buildBuckets key l s0).mpr ⟨a, ha, by simpa using hb⟩
    exact ((sortByLe_perm (fun a b : Int => decide (b ≤ a))
      ((buildBuckets key l).map Prod.fst)).mem_iff).mpr hmem

theorem fittingGPUs_perm (score : String → Int) (n : NodeInfo) (pod : PodInfo) :
    List.Perm (fittingGPUs score n pod) (filterGpusByEnoughResources n pod) :=
  emitDesc_perm id score (filterGpusByEnoughResources n pod) (fun _ => List.Perm.refl _)

theorem sortNodesByName_pairwise (l : List NodeInfo) :
    List.Pairwise (fun a b => a.name ≤ b.name) (sortNodesByName l) := by
  have h := pairwise_sortByLe (fun a b : NodeInfo => decide (a.name ≤ b.name))
    (fun a b hab => by
      simp only [decide_eq_false_iff_not] at hab
      simpa using le_of_not_le hab)
    (fun a b c hab hbc => by
      simp only [decide_eq_true_eq] at hab hbc ⊢
      exact hab.trans hbc) l
  exact h.imp (fun hab => by simpa using hab)

/-- C3 (counterexample): with two equal-score fitting groups enumerated as
"b" then "a", `FittingGPUs` returns ["b", "a"] — the snapshot's enumeration
order — so equal-score candidates are NOT ordered by name as the claim
states. -/
theorem c3_tie_break_counterexample :
    fittingGPUs (fun _ => 0) c3Node c3Pod = ["b", "a"] ∧
    ¬ List.Pairwise (fun a b : String => (0 : Int) = 0 → a ≤ b)
        (fittingGPUs (fun _ => 0) c3Node c3Pod) := by
  have hout : fittingGPUs (fun _ => 0) c3Node c3Pod = ["b", "a"] := by decide
  refine ⟨hout, ?_⟩
  intro h
  rw [hout] at h
  have h1 := (List.pairwise_cons.mp h).1 "a" (List.mem_cons_self _ _)
  have h2 : ("b" : String) ≤ "a" := h1 rfl
  rw [String.le_iff_toList_le] at h2
  exact absurd h2 (by decide)

/-- C3 (amended): `FittingGPUs` is a deterministic function of the snapshot
(including its group-enumeration order) and the plugin scores; its output is
a permutation of the filtered candidates, in descending score order, and
equal-score candidates keep the filter's enumeration order (not name order). -/
theorem c3_fitting_gpus_order (score : String → Int) (n : NodeInfo) (pod : PodInfo) :
    List.Perm (fittingGPUs score n pod) (filterGpusByEnoughResources n pod)
    ∧ List.Pairwise (fun a b => score b ≤ score a) (fittingGPUs score n pod)
    ∧ ∀ s : Int, (fittingGPUs score n pod).filter (fun g => score g == s) =
        (filterGpusByEnoughResources n pod).filter (fun g => score g == s) := by
  refine ⟨fittingGPUs_perm score n pod, ?_, ?_⟩
  · have h := emitDesc_pairwise id score (filterGpusByEnoughResources n pod)
      (fun _ _ => True) (fun _ a ha => ha) (fun s => pairwise_true _)
    exact h.imp (fun hab => by
      rcases hab with h | ⟨h, _⟩
      · exact le_of_lt h
      · exact le_of_eq h.symm)
  · exact fun s => emitDesc_id_filter score (filterGpusByEnoughResources n pod) s

/-- C8: `OrderedNodesByTask` returns the candidate nodes sorted primarily by
node score descending and secondarily, among equal scores, by node name
ascending; the output is a permutation of the scored nodes. -/
theorem c8_ordered_nodes_by_task (score : NodeInfo → Int) (nodes : List NodeInfo) :
    List.Perm (orderedNodesByTask score nodes) nodes
    ∧ List.Pairwise
        (fun a b => score b < score a ∨ (score a = score b ∧ a.name ≤ b.name))
        (orderedNodesByTask score nodes) := by
  constructor
  · exact emitDesc_perm sortNodesByName score nodes (fun xs => sortByLe_perm _ xs)
  · exact emitDesc_pairwise sortNodesByName score nodes
      (fun a b => a.name ≤ b.name)
      (fun xs a ha => (sortByLe_perm _ xs).mem_iff.mp ha)
      (fun s => sortNodesByName_pairwise _)


theorem mintMap_length (supply : Nat → String) : ∀ (k : Nat) (l : List String),
    (mintMap supply k l).length = l.length := by
  intro k l
  induction l generalizing k with
  | nil => rfl
  | cons e rest ih =>
    by_cases he : e = WholeGpuIndicator
    · simp [mintMap, he, ih]
    · simp [mintMap, he, ih]

/-- C4 (counterexample): for a pod requesting N = 0 GPU devices the walk
returns nothing even on a fitting list over which it accumulates one group
per entry — here 1 group, which is not fewer than N = 0 — so the claim's
"returns a selection exactly when it accumulates N groups / returns nothing
only when fewer than N were collected" fails at N = 0. -/
theorem c4_zero_devices_counterexample :
    getNodePreferableGpuForSharing ["b"] c3Node c4Pod false c4Supply = none
    ∧ c4Pod.numGpuDevices ≤ (["b"] : List String).length := by
  constructor
  · decide
  · decide

/-- C4 (amended): each walked entry contributes exactly one group (a fresh
mint for a whole-GPU indicator, the group id itself otherwise), so for a pod
requesting N ≥ 1 devices the walk returns a selection iff the fitting list
has at least N entries, the selection being exactly the first N accumulated
groups (returned at the moment the N-th is collected); with fewer than N
entries it returns nothing; for N = 0 it always returns nothing. -/
theorem c4_selection_walk (fitting : List String) (n : NodeInfo) (pod : PodInfo)
    (pipe : Bool) (supply : Nat → String) (hpos : 1 ≤ pod.numGpuDevices) :
    ((getNodePreferableGpuForSharing fitting n pod pipe supply).isSome ↔
        pod.numGpuDevices ≤ fitting.length)
    ∧ (∀ sel, getNodePreferableGpuForSharing fitting n pod pipe supply = some sel →
        sel.groups = (mintMap supply 0 fitting).take pod.numGpuDevices
        ∧ sel.groups.length = pod.numGpuDevices) := by
  have hspec := getNodePreferableGpuForSharing_spec fitting n pod pipe supply hpos
  constructor
  · rw [hspec]
    by_cases hc : pod.numGpuDevices ≤ fitting.length
    · simp [hc]
    · simp [hc]
  · intro sel hsel
    rw [hspec] at hsel
    by_cases hc : pod.numGpuDevices ≤ fitting.length
    · rw [if_pos hc] at hsel
      have h := Option.some.inj hsel
      rw [← h]
      refine ⟨rfl, ?_⟩
      simp only [List.length_take, mintMap_length]
      omega
    · rw [if_neg hc] at hsel
      exact absurd hsel (by simp)

/-- C4 (witness): the amended theorem applied to the one-entry fitting list
["b"] and a pod requesting one device. -/
theorem c4_selection_walk_witness :
    ((getNodePreferableGpuForSharing ["b"] c3Node c3Pod false c4Supply).isSome ↔
        c3Pod.numGpuDevices ≤ (["b"] : List String).length)
    ∧ (∀ sel, getNodePreferableGpuForSharing ["b"] c3Node c3Pod false c4Supply = some sel →
        sel.groups = (mintMap c4Supply 0 ["b"]).take c3Pod.numGpuDevices
        ∧ sel.groups.length = c3Pod.numGpuDevices) :=
  c4_selection_walk ["b"] c3Node c3Pod false c4Supply (by decide)

/-- C6 (counterexample): with pipeline-only requested the component minted
for a whole-GPU indicator is marked releasing even though the task IS
allocatable against the node's idle resources, so "non-releasing iff
allocatable" fails. -/
theorem c6_pipeline_only_counterexample :
    isTaskAllocatable c3Node c3Pod = true
    ∧ (findGpuForSharingOnNode c3Pod c3Node true "fresh-id").isReleasing = true := by
  constructor
  · decide
  · decide

/-- C6 (amended): for every WholeGpuIndicator processed, exactly one new
group id (the supplied fresh uuid) is minted, and the component is included
non-releasing iff pipeline-only was NOT requested and the task is
allocatable against the node's current idle resources; under pipeline-only
it is always releasing. -/
theorem c6_whole_gpu_minting (pod : PodInfo) (n : NodeInfo) (pipe : Bool)
    (freshId : String) :
    (findGpuForSharingOnNode pod n pipe freshId).groups = [freshId]
    ∧ ((findGpuForSharingOnNode pod n pipe freshId).isReleasing = false ↔
        (pipe = false ∧ isTaskAllocatable n pod = true)) := by
  refine ⟨rfl, ?_⟩
  rw [findGpuForSharingOnNode_isReleasing]
  cases pipe <;> cases h : isTaskAllocatable n pod <;> simp [h]

/-- C5: in `AllocateFractionalGPUTaskToNode`, once a GPU set is selected the
task is recorded via `Statement.Pipeline` — with the node's VRAM accounting
untouched this cycle — iff the caller asked for pipeline-only or some
selected component is releasing; otherwise it goes through
`Statement.Allocate` and, when that succeeds, the allocation is recorded
immediately. -/
theorem c5_pipeline_or_allocate (score : String → Int) (st : Statement) (pod : PodInfo)
    (n : NodeInfo) (isPipelineOnly : Bool) (supply : Nat → String)
    (sel : NodeGpuForSharing)
    (hsel : getNodePreferableGpuForSharing (fittingGPUs score n pod) n pod
      isPipelineOnly supply = some sel) :
    ((isPipelineOnly || sel.isReleasing) = true →
      (allocateFractionalGPUTaskToNode score st pod n isPipelineOnly supply).stmt =
        { st with pipelines := st.pipelines ++ [(pod.name, n.name)] }
      ∧ (allocateFractionalGPUTaskToNode score st pod n isPipelineOnly supply).node = n
      ∧ (allocateFractionalGPUTaskToNode score st pod n isPipelineOnly supply).success = true)
    ∧ ((isPipelineOnly || sel.isReleasing) = false →
      (allocateFractionalGPUTaskToNode score st pod n isPipelineOnly supply).stmt.pipelines =
        st.pipelines
      ∧ ((allocateFractionalGPUTaskToNode score st pod n isPipelineOnly supply).success = true →
        (allocateFractionalGPUTaskToNode score st pod n isPipelineOnly supply).stmt.allocations =
          st.allocations ++ [(pod.name, n.name)])) := by
  unfold allocateFractionalGPUTaskToNode
  rw [hsel]
  dsimp only
  constructor
  · intro hp
    rw [hp]
    simp [allocateSharedGPUTask, stmtPipeline]
  · intro hp
    rw [hp]
    by_cases hdup : (st.allocations.map Prod.fst).contains pod.name = true
    · have hnone : stmtAllocate st { pod with gpuGroups := some sel.groups } n.name = none := by
        simp only [stmtAllocate]
        rw [if_pos hdup]
      simp [allocateSharedGPUTask, hnone]
    · have hsome : stmtAllocate st { pod with gpuGroups := some sel.groups } n.name =
          some { st with allocations := st.allocations ++ [(pod.name, n.name)] } := by
        simp only [stmtAllocate]
        rw [if_neg hdup]
      simp [allocateSharedGPUTask, hsome]

/-- C5 (witness): on a fresh one-GPU node with an empty statement the
selected set is non-releasing; the call records an allocation and no
pipeline. -/
theorem c5_pipeline_or_allocate_witness :
    (allocateFractionalGPUTaskToNode (fun _ => 0) ⟨[], []⟩ c3Pod c5Node false
        c4Supply).stmt.pipelines = ([] : List (String × String))
    ∧ (allocateFractionalGPUTaskToNode (fun _ => 0) ⟨[], []⟩ c3Pod c5Node false
        c4Supply).stmt.allocations = [("p", "n5")] := by
  have h := (c5_pipeline_or_allocate (fun _ => 0) ⟨[], []⟩ c3Pod c5Node false
    c4Supply c5Sel (by decide)).2 (by decide)
  exact ⟨h.1, h.2 (by decide)⟩

/-- C10 (counterexample): when no selection is found the call returns false
WITHOUT touching the pod: a pod that entered with the stale GPUGroups value
["old"] still carries it after the failed call, so "GPUGroups is nil
whenever the call returns false" is wrong. -/
theorem c10_stale_groups_counterexample :
    (allocateFractionalGPUTaskToNode (fun _ => 0) ⟨[], []⟩ c10Pod c10Node false
        c4Supply).success = false
    ∧ (allocateFractionalGPUTaskToNode (fun _ => 0) ⟨[], []⟩ c10Pod c10Node false
        c4Supply).pod.gpuGroups = some ["old"] := by
  constructor
  · decide
  · decide

/-- C10 (amended): when the call fails before any selection is found, the
pod is returned untouched and any pre-existing GPUGroups value survives;
when it fails after a selection was found, GPUGroups is cleared to nil; when
it returns true, GPUGroups equals the selected group list. -/
theorem c10_gpu_groups_on_failure (score : String → Int) (st : Statement) (pod : PodInfo)
    (n : NodeInfo) (pipe : Bool) (supply : Nat → String) :
    (getNodePreferableGpuForSharing (fittingGPUs score n pod) n pod pipe supply = none →
      (allocateFractionalGPUTaskToNode score st pod n pipe supply).success = false
      ∧ (allocateFractionalGPUTaskToNode score st pod n pipe supply).pod = pod)
    ∧ (∀ sel,
      getNodePreferableGpuForSharing (fittingGPUs score n pod) n pod pipe supply = some sel →
      ((allocateFractionalGPUTaskToNode score st pod n pipe supply).success = true →
        (allocateFractionalGPUTaskToNode score st pod n pipe supply).pod.gpuGroups =
          some sel.groups)
      ∧ ((allocateFractionalGPUTaskToNode score st pod n pipe supply).success = false →
        (allocateFractionalGPUTaskToNode score st pod n pipe supply).pod.gpuGroups = none)) := by
  constructor
  · intro hnone
    unfold allocateFractionalGPUTaskToNode
    rw [hnone]
    exact ⟨rfl, rfl⟩
  · intro sel hsel
    unfold allocateFractionalGPUTaskToNode
    rw [hsel]
    dsimp only
    rcases hout : allocateSharedGPUTask st n { pod with gpuGroups := some sel.groups }
      (pipe || sel.isReleasing) with ⟨ok, st2, n2⟩
    cases ok
    · simp
    · simp


/-- C10 (witness): the amended theorem applied at a call where no selection
is found (the stale pod survives untouched) and at a call whose allocate
fails on a duplicate statement entry after a selection was found (groups
cleared to nil). -/
theorem c10_gpu_groups_on_failure_witness :
    (allocateFractionalGPUTaskToNode (fun _ => 0) ⟨[], []⟩ c10Pod c10Node false
        c4Supply).pod = c10Pod
    ∧ (allocateFractionalGPUTaskToNode (fun _ => 0) ⟨[("p", "x")], []⟩ c3Pod c5Node false
        c4Supply).pod.gpuGroups = none := by
  refine ⟨((c10_gpu_groups_on_failure (fun _ => 0) ⟨[], []⟩ c10Pod c10Node false
    c4Supply).1 (by decide)).2, ?_⟩
  exact ((c10_gpu_groups_on_failure (fun _ => 0) ⟨[("p", "x")], []⟩ c3Pod c5Node false
    c4Supply).2 c5Sel (by decide)).2 (by decide)

/-- C2: Scenario A — on a node advertising 100 allocatable GPU devices
backed by 1 physical 32600 MiB GPU (idle clamped to 1 at construction),
five successive pods each requesting gpu-memory 8000 MiB: the first four
are allocated to the same minted group "uuid-0" whose used VRAM grows
8000, 16000, 24000, 32000 MiB; the fifth call fails — the group lacks
memory, no idle or releasing whole GPU remains, the fitting list is empty —
and the fifth pod is left pending with no groups. -/
theorem c2_time_slicing_scenario :
    c2Node0.idleGpus = 1
    ∧ (c2R1.success = true ∧ c2R1.pod.gpuGroups = some ["uuid-0"]
      ∧ lookupMem c2R1.node.usedSharedGPUsMemory "uuid-0" = 8000
      ∧ c2R1.node.idleGpus = 0)
    ∧ (c2R2.success = true ∧ c2R2.pod.gpuGroups = some ["uuid-0"]
      ∧ lookupMem c2R2.node.usedSharedGPUsMemory "uuid-0" = 16000)
    ∧ (c2R3.success = true ∧ c2R3.pod.gpuGroups = some ["uuid-0"]
      ∧ lookupMem c2R3.node.usedSharedGPUsMemory "uuid-0" = 24000)
    ∧ (c2R4.success = true ∧ c2R4.pod.gpuGroups = some ["uuid-0"]
      ∧ lookupMem c2R4.node.usedSharedGPUsMemory "uuid-0" = 32000)
    ∧ (c2R5.success = false ∧ c2R5.pod.gpuGroups = none
      ∧ fittingGPUs c2Score c2R4.node (c2Pod 5) = []
      ∧ isTaskFitOnGpuGroup c2R4.node 8000 "uuid-0" = false
      ∧ c2R4.node.idleGpus = 0 ∧ c2R4.node.releasingGpus = 0) := by
  decide

/-- C9: `Session.Evict` for a pod whose pod-group id is not in the session's
PodGroupInfos map returns an error and performs no mutation at all: the
session state — cache-eviction log, pod statuses, node accounting and
deallocate events — is returned untouched. -/
theorem c9_evict_missing_podgroup (s : SessionState) (pod : PodInfo)
    (h : s.podGroupIds.contains pod.job = false) :
    (sessionEvict s pod).1.isSome = true ∧ (sessionEvict s pod).2 = s := by
  have hc : ¬ (s.podGroupIds.contains pod.job = true) := by
    rw [h]
    simp
  simp only [sessionEvict]
  rw [if_neg hc]
  exact ⟨rfl, rfl⟩

/-- C9 (witness): evicting a pod of the unknown pod-group "j" from a session
that only knows "jobA" errors and leaves the session unchanged. -/
theorem c9_evict_missing_podgroup_witness :
    (sessionEvict c9Session c3Pod).1.isSome = true
    ∧ (sessionEvict c9Session c3Pod).2 = c9Session :=
  c9_evict_missing_podgroup c9Session c3Pod (by decide)

theorem undoGangOp_applyGangOp (st : ClusterState) (op : GangOp) :
    undoGangOp (applyGangOp st op) op = st := by
  cases op with
  | assign t nd =>
    simp [applyGangOp, undoGangOp]

theorem discardGangOps_applyOps (st : ClusterState) (ops : List GangOp) :
    discardGangOps (ops.foldl applyGangOp st) ops = st := by
  induction ops generalizing st with
  | nil => rfl
  | cons op rest ih =>
    show discardGangOps (rest.foldl applyGangOp (applyGangOp st op)) (op :: rest) = st
    rw [discardGangOps, List.reverse_cons, List.foldl_append]
    have hinner : rest.reverse.foldl undoGangOp
        (rest.foldl applyGangOp (applyGangOp st op)) = applyGangOp st op :=
      ih (applyGangOp st op)
    rw [hinner]
    show undoGangOp (applyGangOp st op) op = st
    exact undoGangOp_applyGangOp st op

theorem foldl_place_spec (place : String → Option String) :
    ∀ (tasks : List String) (st0 : ClusterState) (ops0 : List GangOp),
    tasks.foldl
      (fun acc t =>
        match place t with
        | some nd => (applyGangOp acc.1 (.assign t nd), acc.2 ++ [GangOp.assign t nd])
        | none => acc)
      (st0, ops0)
    = (⟨st0.bound ++ placedPairs tasks place⟩,
       ops0 ++ (placedPairs tasks place).map (fun p => GangOp.assign p.1 p.2)) := by
  intro tasks
  induction tasks with
  | nil =>
    intro st0 ops0
    simp [placedPairs]
  | cons t rest ih =>
    intro st0 ops0
    rw [List.foldl_cons]
    cases hp : place t with
    | none =>
      simp only [hp]
      rw [ih st0 ops0]
      simp [placedPairs, List.filterMap_cons, hp]
    | some nd =>
      simp only [hp]
      rw [ih]
      simp [placedPairs, List.filterMap_cons, hp, applyGangOp, List.append_assoc]

theorem tryAllocGang_spec (st : ClusterState) (tasks : List String)
    (place : String → Option String) :
    tryAllocGang st tasks place =
      (⟨st.bound ++ placedPairs tasks place⟩,
       (placedPairs tasks place).map (fun p => GangOp.assign p.1 p.2)) := by
  rw [tryAllocGang]
  exact foldl_place_spec place tasks st []

theorem foldl_applyGangOp (st : ClusterState) (pairs : List (String × String)) :
    (pairs.map (fun p => GangOp.assign p.1 p.2)).foldl applyGangOp st =
      ⟨st.bound ++ pairs⟩ := by
  induction pairs generalizing st with
  | nil => simp
  | cons p rest ih =>
    rw [List.map_cons, List.foldl_cons, ih]
    simp [applyGangOp, List.append_assoc]

/-- C7: gang admission — a gang's tasks are bound iff at least `minMember`
of them had successful allocations/pipelines committed in the same
statement: when the allocator places at least `minMember` tasks the
statement commits and exactly those placements become bound; when it places
fewer, the statement is discarded, undoing every recorded operation in
reverse order, and the cluster state is returned exactly as it was — no pod
of the gang is bound. -/
theorem c7_gang_min_member (st : ClusterState) (minMember : Nat) (tasks : List String)
    (place : String → Option String) :
    (minMember ≤ (placedPairs tasks place).length →
      gangSchedule st minMember tasks place = ⟨st.bound ++ placedPairs tasks place⟩)
    ∧ ((placedPairs tasks place).length < minMember →
      gangSchedule st minMember tasks place = st) := by
  constructor
  · intro hge
    rw [gangSchedule, tryAllocGang_spec]
    dsimp only
    rw [if_pos (by simpa using hge)]
  · intro hlt
    rw [gangSchedule, tryAllocGang_spec]
    dsimp only
    rw [if_neg (by simp only [List.length_map]; omega)]
    rw [← foldl_applyGangOp st (placedPairs tasks place)]
    exact discardGangOps_applyOps st _

/-- C7 (witness): with placements for "A" and "B" only, a gang of
minMember 2 binds both in one statement, while a gang {A, B, C} of
minMember 3 is discarded and nothing is bound. -/
theorem c7_gang_min_member_witness :
    gangSchedule ⟨[]⟩ 2 ["A", "B"] c7Place = ⟨[("A", "node"), ("B", "node")]⟩
    ∧ gangSchedule ⟨[]⟩ 3 ["A", "B", "C"] c7Place = ⟨[]⟩ := by
  constructor
  · have h := (c7_gang_min_member ⟨[]⟩ 2 ["A", "B"] c7Place).1 (by decide)
    rw [h]
    decide
  · exact (c7_gang_min_member ⟨[]⟩ 3 ["A", "B", "C"] c7Place).2 (by decide)


/-! Auxiliary facts used by the allocation invariant. -/

theorem mintMap_take (supply : Nat → String) :
    ∀ (l : List String) (k N : Nat),
    (mintMap supply k l).take N = mintMap supply k (l.take N) := by
  intro l
  induction l with
  | nil => intro k N; simp [mintMap]
  | cons e rest ih =>
    intro k N
    cases N with
    | zero => simp [mintMap]
    | succ N2 =>
      by_cases he : e = WholeGpuIndicator
      · simp only [mintMap, if_pos he, List.take_succ_cons, ih]
      · simp only [mintMap, if_neg he, List.take_succ_cons, ih]

theorem mem_mintMap (supply : Nat → String) :
    ∀ (l : List String) (k : Nat) (g : String), g ∈ mintMap supply k l →
    (g ∈ l ∧ g ≠ WholeGpuIndicator) ∨
      ((∃ i, k ≤ i ∧ g = supply i) ∧ WholeGpuIndicator ∈ l) := by
  intro l
  induction l with
  | nil => intro k g hg; exact absurd hg (by simp [mintMap])
  | cons e rest ih =>
    intro k g hg
    by_cases he : e = WholeGpuIndicator
    · rw [mintMap, if_pos he] at hg
      rcases List.mem_cons.mp hg with hg | hg
      · exact Or.inr ⟨⟨k, Nat.le_refl k, hg⟩, by rw [← he]; exact List.mem_cons_self _ _⟩
      · rcases ih (k + 1) g hg with h | ⟨⟨i, hi, hgi⟩, hw⟩
        · exact Or.inl ⟨List.mem_cons_of_mem _ h.1, h.2⟩
        · exact Or.inr ⟨⟨i, by omega, hgi⟩, List.mem_cons_of_mem _ hw⟩
    · rw [mintMap, if_neg he] at hg
      rcases List.mem_cons.mp hg with hg | hg
      · exact Or.inl ⟨hg ▸ List.mem_cons_self _ _, hg ▸ he⟩
      · rcases ih k g hg with h | ⟨hi, hw⟩
        · exact Or.inl ⟨List.mem_cons_of_mem _ h.1, h.2⟩
        · exact Or.inr ⟨hi, List.mem_cons_of_mem _ hw⟩

theorem mintMap_nodup (supply : Nat → String) (used : GroupMem)
    (hinj : ∀ i j, supply i = supply j → i = j)
    (hfresh : ∀ i, lookupMem used (supply i) = 0) :
    ∀ (l : List String) (k : Nat),
    (∀ e ∈ l, e ≠ WholeGpuIndicator → lookupMem used e ≠ 0) →
    (∀ e, e ≠ WholeGpuIndicator → l.count e ≤ 1) →
    (mintMap supply k l).Nodup := by
  intro l
  induction l with
  | nil => intro k _ _; simp [mintMap]
  | cons e rest ih =>
    intro k hreal hcount
    have hrestReal : ∀ e2 ∈ rest, e2 ≠ WholeGpuIndicator → lookupMem used e2 ≠ 0 :=
      fun e2 he2 => hreal e2 (List.mem_cons_of_mem _ he2)
    have hrestCount : ∀ e2, e2 ≠ WholeGpuIndicator → rest.count e2 ≤ 1 := by
      intro e2 hne
      have := hcount e2 hne
      rw [List.count_cons] at this
      omega
    by_cases he : e = WholeGpuIndicator
    · rw [mintMap, if_pos he]
      refine List.nodup_cons.mpr ⟨?_, ih (k + 1) hrestReal hrestCount⟩
      intro hmem
      rcases mem_mintMap supply rest (k + 1) (supply k) hmem with h | ⟨⟨i, hi, hgi⟩, _⟩
      · exact hrestReal _ h.1 h.2 (hfresh k)
      · have := hinj k i hgi
        omega
    · rw [mintMap, if_neg he]
      refine List.nodup_cons.mpr ⟨?_, ih k hrestReal hrestCount⟩
      intro hmem
      rcases mem_mintMap supply rest k e hmem with h | ⟨⟨i, hi, hgi⟩, _⟩
      · have hcnt := hcount e he
        rw [List.count_cons] at hcnt
        simp only [beq_self_eq_true, if_true] at hcnt
        have hpos : 0 < rest.count e := List.count_pos_iff.mpr h.1
        omega
      · exact hreal e (List.mem_cons_self _ _) he (hgi ▸ hfresh i)

theorem mintMap_zero_filter (supply : Nat → String) (used : GroupMem)
    (hfresh : ∀ i, lookupMem used (supply i) = 0) :
    ∀ (l : List String) (k : Nat),
    (∀ e ∈ l, e ≠ WholeGpuIndicator → lookupMem used e ≠ 0) →
    ((mintMap supply k l).filter (fun g => lookupMem used g == 0)).length =
      l.count WholeGpuIndicator := by
  intro l
  induction l with
  | nil => intro k _; simp [mintMap]
  | cons e rest ih =>
    intro k hreal
    have hrestReal : ∀ e2 ∈ rest, e2 ≠ WholeGpuIndicator → lookupMem used e2 ≠ 0 :=
      fun e2 he2 => hreal e2 (List.mem_cons_of_mem _ he2)
    by_cases he : e = WholeGpuIndicator
    · rw [mintMap, if_pos he, List.filter_cons]
      have hz : (lookupMem used (supply k) == 0) = true := by simp [hfresh k]
      rw [if_pos (by rw [hz])]
      rw [List.count_cons]
      simp only [he, beq_self_eq_true, if_true, List.length_cons]
      rw [ih (k + 1) hrestReal]
    · rw [mintMap, if_neg he, List.filter_cons]
      have hnz : lookupMem used e ≠ 0 := hreal e (List.mem_cons_self _ _) he
      have hz : (lookupMem used e == 0) = false := by simpa using hnz
      rw [if_neg (by rw [hz]; exact Bool.false_ne_true)]
      have hbe : (e == WholeGpuIndicator) = false := by simpa using he
      rw [List.count_cons, hbe]
      simp only [Bool.false_eq_true, if_false, Nat.add_zero]
      exact ih k hrestReal

theorem wgi_not_mem_realpart (n : NodeInfo) (pod : PodInfo)
    (hwgi : ∀ p ∈ n.usedSharedGPUsMemory, p.1 ≠ WholeGpuIndicator) :
    WholeGpuIndicator ∉ (memKeys n.usedSharedGPUsMemory).filter
      (fun g => isTaskFitOnGpuGroup n pod.gpuMemory g) := by
  intro hmem
  have h1 : WholeGpuIndicator ∈ memKeys n.usedSharedGPUsMemory :=
    List.mem_of_mem_filter hmem
  rcases List.mem_map.mp h1 with ⟨p, hp, hpe⟩
  exact hwgi p hp hpe

theorem count_wgi_filtered (n : NodeInfo) (pod : PodInfo)
    (hrel : n.releasingGpus = 0)
    (hwgi : ∀ p ∈ n.usedSharedGPUsMemory, p.1 ≠ WholeGpuIndicator) :
    (filterGpusByEnoughResources n pod).count WholeGpuIndicator = n.idleGpus := by
  have hreal0 : ((memKeys n.usedSharedGPUsMemory).filter
      (fun g => isTaskFitOnGpuGroup n pod.gpuMemory g)).count WholeGpuIndicator = 0 :=
    List.count_eq_zero.mpr (wgi_not_mem_realpart n pod hwgi)
  rw [filterGpusByEnoughResources]
  by_cases hc : 0 < n.idleGpus ∨ 0 < n.releasingGpus
  · rw [if_pos hc, List.count_append, hreal0, Nat.zero_add, hrel,
      Nat.add_zero, List.count_replicate_self]
  · rw [if_neg hc]
    rw [hreal0]
    omega

theorem real_mem_filtered (n : NodeInfo) (pod : PodInfo) (e : String)
    (he : e ∈ filterGpusByEnoughResources n pod) (hne : e ≠ WholeGpuIndicator) :
    isTaskFitOnGpuGroup n pod.gpuMemory e = true
    ∧ e ∈ memKeys n.usedSharedGPUsMemory := by
  rw [filterGpusByEnoughResources] at he
  have hreal : e ∈ (memKeys n.usedSharedGPUsMemory).filter
      (fun g => isTaskFitOnGpuGroup n pod.gpuMemory g) := by
    by_cases hc : 0 < n.idleGpus ∨ 0 < n.releasingGpus
    · rw [if_pos hc] at he
      rcases List.mem_append.mp he with h | h
      · exact h
      · exact absurd (List.eq_of_mem_replicate h) hne
    · rw [if_neg hc] at he
      exact he
  exact ⟨List.of_mem_filter hreal, List.mem_of_mem_filter hreal⟩

theorem count_real_filtered (n : NodeInfo) (pod : PodInfo) (e : String)
    (hnd : (memKeys n.usedSharedGPUsMemory).Nodup) (hne : e ≠ WholeGpuIndicator) :
    (filterGpusByEnoughResources n pod).count e ≤ 1 := by
  have hkeys : (memKeys n.usedSharedGPUsMemory).count e ≤ 1 :=
    List.nodup_iff_count_le_one.mp hnd e
  have hreal : ((memKeys n.usedSharedGPUsMemory).filter
      (fun g => isTaskFitOnGpuGroup n pod.gpuMemory g)).count e ≤ 1 :=
    le_trans ((List.filter_sublist _).count_le e) hkeys
  rw [filterGpusByEnoughResources]
  by_cases hc : 0 < n.idleGpus ∨ 0 < n.releasingGpus
  · rw [if_pos hc, List.count_append]
    have hbe : (WholeGpuIndicator == e) = false := by
      simpa using fun hc2 => hne hc2.symm
    rw [List.count_replicate, hbe]
    simp only [Bool.false_eq_true, if_false]
    omega
  · rw [if_neg hc]
    exact hreal


theorem nodeInv_foldAlloc (req : Nat) :
    ∀ (gs : List String) (n : NodeInfo),
    NodeInv n →
    gs.Nodup →
    (∀ g ∈ gs, g ≠ WholeGpuIndicator) →
    (∀ g ∈ gs,
      (lookupMem n.usedSharedGPUsMemory g = 0 ∧ req ≤ n.memoryOfEveryGpuOnNode) ∨
      (lookupMem n.usedSharedGPUsMemory g ≠ 0 ∧
        lookupMem n.usedSharedGPUsMemory g + req ≤ n.memoryOfEveryGpuOnNode)) →
    (gs.filter (fun g => lookupMem n.usedSharedGPUsMemory g == 0)).length ≤ n.idleGpus →
    NodeInv (gs.foldl (fun m g => addSharedTaskToGroup m req g) n) := by
  intro gs
  induction gs with
  | nil => intro n hinv _ _ _ _; exact hinv
  | cons g rest ih =>
    intro n hinv hnd hwgi hmem hidle
    rw [List.foldl_cons]
    have hgw : g ≠ WholeGpuIndicator := hwgi g (List.mem_cons_self _ _)
    rcases List.nodup_cons.mp hnd with ⟨hgrest, hndrest⟩
    have hused2 : (addSharedTaskToGroup n req g).usedSharedGPUsMemory =
        bumpMem n.usedSharedGPUsMemory g req := rfl
    have halloc2 : (addSharedTaskToGroup n req g).allocatedSharedGPUsMemory =
        bumpMem n.allocatedSharedGPUsMemory g req := rfl
    have hmemEq : (addSharedTaskToGroup n req g).memoryOfEveryGpuOnNode =
        n.memoryOfEveryGpuOnNode := rfl
    have hphysEq : (addSharedTaskToGroup n req g).physicalGPUCount =
        n.physicalGPUCount := rfl
    have hrelEq : (addSharedTaskToGroup n req g).releasingSharedGPUsMemory =
        n.releasingSharedGPUsMemory := rfl
    have hrelGEq : (addSharedTaskToGroup n req g).releasingGpus = n.releasingGpus := rfl
    have hlookup : ∀ g2, g2 ≠ g →
        lookupMem (addSharedTaskToGroup n req g).usedSharedGPUsMemory g2 =
          lookupMem n.usedSharedGPUsMemory g2 := by
      intro g2 hne
      rw [hused2]
      exact lookupMem_bumpMem_ne _ _ _ _ hne
    rcases hmem g (List.mem_cons_self _ _) with ⟨hz, hle⟩ | ⟨hnz, hle⟩
    · -- g is a fresh group: first tenant, idle decremented
      have hzb : (lookupMem n.usedSharedGPUsMemory g == 0) = true := by simp [hz]
      have hidle2 : (addSharedTaskToGroup n req g).idleGpus = n.idleGpus - 1 := by
        simp [addSharedTaskToGroup, hzb]
      rw [List.filter_cons, if_pos (by rw [hzb]), List.length_cons] at hidle
      have hinv2 : NodeInv (addSharedTaskToGroup n req g) := by
        constructor
        · rw [hused2, halloc2, hinv.allocEqUsed]
        · rw [hrelEq]; exact hinv.relMapNil
        · rw [hrelGEq]; exact hinv.relGpusZero
        · intro p hp
          rw [hused2] at hp
          rw [hmemEq]
          rcases mem_bumpMem _ _ _ p hp with hp2 | hp2
          · exact hinv.valuesLe p hp2
          · rw [hp2]
            dsimp only
            rw [hz, Nat.zero_add]
            exact hle
        · rw [hused2]
          by_cases hgk : g ∈ memKeys n.usedSharedGPUsMemory
          · rw [memKeys_bumpMem_of_mem _ _ _ hgk]
            exact hinv.keysNodup
          · rw [memKeys_bumpMem_of_not_mem _ _ _ hgk]
            simp [List.nodup_append, hinv.keysNodup, hgk]
        · intro p hp
          rw [hused2] at hp
          rcases mem_bumpMem _ _ _ p hp with hp2 | hp2
          · exact hinv.noWgiKey p hp2
          · rw [hp2]
            exact hgw
        · rw [hidle2, hused2, hphysEq, activeCount_bumpMem_of_zero _ _ _ hz]
          have hib := hinv.idleBound
          have hc : (if req = 0 then 0 else 1) ≤ 1 := by
            split
            · omega
            · omega
          omega
      apply ih _ hinv2 hndrest (fun g2 hg2 => hwgi g2 (List.mem_cons_of_mem _ hg2))
      · intro g2 hg2
        have hne : g2 ≠ g := fun he => hgrest (he ▸ hg2)
        rw [hlookup g2 hne, hmemEq]
        exact hmem g2 (List.mem_cons_of_mem _ hg2)
      · rw [hidle2]
        have hcong : ∀ g2 ∈ rest,
            (lookupMem (addSharedTaskToGroup n req g).usedSharedGPUsMemory g2 == 0) =
              (lookupMem n.usedSharedGPUsMemory g2 == 0) := by
          intro g2 hg2
          rw [hlookup g2 (fun he => hgrest (he ▸ hg2))]
        rw [List.filter_congr hcong]
        omega
    · -- g is an existing populated group: idle unchanged
      have hzb : (lookupMem n.usedSharedGPUsMemory g == 0) = false := by simpa using hnz
      have hidle2 : (addSharedTaskToGroup n req g).idleGpus = n.idleGpus := by
        simp [addSharedTaskToGroup, hzb]
      rw [List.filter_cons, if_neg (by rw [hzb]; exact Bool.false_ne_true)] at hidle
      have hinv2 : NodeInv (addSharedTaskToGroup n req g) := by
        constructor
        · rw [hused2, halloc2, hinv.allocEqUsed]
        · rw [hrelEq]; exact hinv.relMapNil
        · rw [hrelGEq]; exact hinv.relGpusZero
        · intro p hp
          rw [hused2] at hp
          rw [hmemEq]
          rcases mem_bumpMem _ _ _ p hp with hp2 | hp2
          · exact hinv.valuesLe p hp2
          · rw [hp2]
            exact hle
        · rw [hused2, memKeys_bumpMem_of_mem _ _ _
            (mem_keys_of_lookupMem_ne_zero _ _ hnz)]
          exact hinv.keysNodup
        · intro p hp
          rw [hused2] at hp
          rcases mem_bumpMem _ _ _ p hp with hp2 | hp2
          · exact hinv.noWgiKey p hp2
          · rw [hp2]
            exact hgw
        · rw [hidle2, hused2, hphysEq, activeCount_bumpMem_of_ne_zero _ _ _ hnz]
          exact hinv.idleBound
      apply ih _ hinv2 hndrest (fun g2 hg2 => hwgi g2 (List.mem_cons_of_mem _ hg2))
      · intro g2 hg2
        have hne : g2 ≠ g := fun he => hgrest (he ▸ hg2)
        rw [hlookup g2 hne, hmemEq]
        exact hmem g2 (List.mem_cons_of_mem _ hg2)
      · rw [hidle2]
        have hcong : ∀ g2 ∈ rest,
            (lookupMem (addSharedTaskToGroup n req g).usedSharedGPUsMemory g2 == 0) =
              (lookupMem n.usedSharedGPUsMemory g2 == 0) := by
          intro g2 hg2
          rw [hlookup g2 (fun he => hgrest (he ▸ hg2))]
        rw [List.filter_congr hcong]
        exact hidle


theorem nodeInv_newNodeInfo (name : String) (allocatableGpus : Nat)
    (gpuCountLabel : Option Nat) (gpuMemoryLabel : Nat)
    (hlabel : ∀ v, gpuCountLabel = some v → 0 < v) :
    NodeInv (newNodeInfo name allocatableGpus gpuCountLabel gpuMemoryLabel) := by
  refine ⟨rfl, rfl, rfl, ?_, List.nodup_nil, ?_, ?_⟩
  · intro p hp
    exact absurd hp (List.not_mem_nil p)
  · intro p hp
    exact absurd hp (List.not_mem_nil p)
  · show (if gpuCountLabel.getD allocatableGpus < allocatableGpus ∧
        0 < gpuCountLabel.getD allocatableGpus
      then gpuCountLabel.getD allocatableGpus else allocatableGpus) + activeCount [] ≤
        gpuCountLabel.getD allocatableGpus
    have hac : activeCount [] = 0 := rfl
    cases gpuCountLabel with
    | none =>
      rw [Option.getD_none, hac]
      split
      · omega
      · omega
    | some v =>
      have hv : 0 < v := hlabel v rfl
      rw [Option.getD_some, hac]
      split
      · omega
      · rename_i hcond
        have hge : ¬ v < allocatableGpus := fun hlt => hcond ⟨hlt, hv⟩
        omega

theorem nodeInv_sum_bound (n : NodeInfo) (hinv : NodeInv n) :
    sumMem n.allocatedSharedGPUsMemory ≤
      n.physicalGPUCount * n.memoryOfEveryGpuOnNode := by
  rw [hinv.allocEqUsed]
  have h1 := sumMem_le_activeCount_mul n.usedSharedGPUsMemory
    n.memoryOfEveryGpuOnNode hinv.valuesLe
  have h2 : activeCount n.usedSharedGPUsMemory ≤ n.physicalGPUCount := by
    have := hinv.idleBound
    omega
  calc sumMem n.usedSharedGPUsMemory
      ≤ activeCount n.usedSharedGPUsMemory * n.memoryOfEveryGpuOnNode := h1
    _ ≤ n.physicalGPUCount * n.memoryOfEveryGpuOnNode :=
        Nat.mul_le_mul_right _ h2

theorem fit_implies_used_ne_zero (n : NodeInfo) (req : Nat) (e : String)
    (hfit : isTaskFitOnGpuGroup n req e = true) :
    lookupMem n.usedSharedGPUsMemory e ≠ 0 := by
  intro hz
  rw [isTaskFitOnGpuGroup] at hfit
  simp [hz] at hfit

theorem nodeInv_step (n : NodeInfo) (score : String → Int) (st : Statement)
    (pod : PodInfo) (pipe : Bool) (supply : Nat → String)
    (hinv : NodeInv n)
    (hinj : ∀ i j, supply i = supply j → i = j)
    (hfresh : ∀ i, lookupMem n.usedSharedGPUsMemory (supply i) = 0)
    (hnotWgi : ∀ i, supply i ≠ WholeGpuIndicator) :
    NodeInv (allocateFractionalGPUTaskToNode score st pod n pipe supply).node := by
  by_cases hN : pod.numGpuDevices = 0
  · have hnone := getNodePreferableGpuForSharing_zero_devices
      (fittingGPUs score n pod) n pod pipe supply hN
    unfold allocateFractionalGPUTaskToNode
    rw [hnone]
    exact hinv
  have hpos : 1 ≤ pod.numGpuDevices := Nat.one_le_iff_ne_zero.mpr hN
  have hspec := getNodePreferableGpuForSharing_spec
    (fittingGPUs score n pod) n pod pipe supply hpos
  by_cases hlen : pod.numGpuDevices ≤ (fittingGPUs score n pod).length
  case neg =>
    rw [if_neg hlen] at hspec
    unfold allocateFractionalGPUTaskToNode
    rw [hspec]
    exact hinv
  rw [if_pos hlen] at hspec
  unfold allocateFractionalGPUTaskToNode
  rw [hspec]
  dsimp only
  by_cases hflag : (pipe || (((fittingGPUs score n pod).take pod.numGpuDevices).any
      (entryReleasing n pod pipe))) = true
  · rw [hflag]
    simp only [allocateSharedGPUTask, stmtPipeline, if_true]
    exact hinv
  have hflagF : (pipe || (((fittingGPUs score n pod).take pod.numGpuDevices).any
      (entryReleasing n pod pipe))) = false := by
    revert hflag
    cases pipe || (((fittingGPUs score n pod).take pod.numGpuDevices).any
      (entryReleasing n pod pipe))
    · intro _
      rfl
    · intro h
      exact absurd rfl h
  obtain ⟨hpipeF, hanyF⟩ := Bool.or_eq_false_iff.mp hflagF
  rw [hflagF]
  have hFreal : ∀ e ∈ (fittingGPUs score n pod).take pod.numGpuDevices,
      e ≠ WholeGpuIndicator → lookupMem n.usedSharedGPUsMemory e ≠ 0 := by
    intro e he hne
    have hef := real_mem_filtered n pod e
      ((fittingGPUs_perm score n pod).mem_iff.mp (List.mem_of_mem_take he)) hne
    exact fit_implies_used_ne_zero n pod.gpuMemory e hef.1
  have hentry : ∀ e ∈ (fittingGPUs score n pod).take pod.numGpuDevices,
      entryReleasing n pod pipe e = false := by
    intro e he
    have := List.any_eq_false.mp hanyF e he
    simpa using this
  have halloc : isTaskAllocatable n pod = true := by
    have hlenF : 0 < ((fittingGPUs score n pod).take pod.numGpuDevices).length := by
      rw [List.length_take, Nat.min_eq_left hlen]
      omega
    rcases List.exists_mem_of_length_pos hlenF with ⟨e, he⟩
    have hE := hentry e he
    by_cases hew : e = WholeGpuIndicator
    · rw [entryReleasing_wgi n pod pipe e hew, hpipeF] at hE
      simpa using hE
    · rw [entryReleasing_real n pod pipe e hew] at hE
      rcases Bool.or_eq_false_iff.mp hE with ⟨h1, h2⟩
      simpa using h2
  have hreqle : pod.gpuMemory ≤ n.memoryOfEveryGpuOnNode := by
    rw [isTaskAllocatable] at halloc
    exact of_decide_eq_true halloc
  have hcount1 : ∀ e, e ≠ WholeGpuIndicator →
      ((fittingGPUs score n pod).take pod.numGpuDevices).count e ≤ 1 := by
    intro e hne
    refine le_trans ((List.take_sublist _ _).count_le e) ?_
    rw [(fittingGPUs_perm score n pod).count_eq]
    exact count_real_filtered n pod e hinv.keysNodup hne
  have hnd : (mintMap supply 0
      ((fittingGPUs score n pod).take pod.numGpuDevices)).Nodup :=
    mintMap_nodup supply n.usedSharedGPUsMemory hinj hfresh _ 0 hFreal hcount1
  have hgswgi : ∀ g ∈ mintMap supply 0
      ((fittingGPUs score n pod).take pod.numGpuDevices),
      g ≠ WholeGpuIndicator := by
    intro g hg
    rcases mem_mintMap supply _ 0 g hg with h | ⟨⟨i, _, hgi⟩, _⟩
    · exact h.2
    · exact hgi ▸ hnotWgi i
  have hmemCond : ∀ g ∈ mintMap supply 0
      ((fittingGPUs score n pod).take pod.numGpuDevices),
      (lookupMem n.usedSharedGPUsMemory g = 0 ∧
        pod.gpuMemory ≤ n.memoryOfEveryGpuOnNode) ∨
      (lookupMem n.usedSharedGPUsMemory g ≠ 0 ∧
        lookupMem n.usedSharedGPUsMemory g + pod.gpuMemory ≤
          n.memoryOfEveryGpuOnNode) := by
    intro g hg
    rcases mem_mintMap supply _ 0 g hg with ⟨hgF, hgne⟩ | ⟨⟨i, _, hgi⟩, _⟩
    · right
      refine ⟨hFreal g hgF hgne, ?_⟩
      have hE := hentry g hgF
      rw [entryReleasing_real n pod pipe g hgne] at hE
      rcases Bool.or_eq_false_iff.mp hE with ⟨h1, _⟩
      have henough : enoughIdleResourcesOnGpu n pod.gpuMemory g = true := by
        simpa using h1
      rw [enoughIdleResourcesOnGpu] at henough
      have h2 := of_decide_eq_true henough
      rwa [hinv.allocEqUsed] at h2
    · left
      exact ⟨hgi ▸ hfresh i, hreqle⟩
  have hidleB : ((mintMap supply 0
      ((fittingGPUs score n pod).take pod.numGpuDevices)).filter
        (fun g => lookupMem n.usedSharedGPUsMemory g == 0)).length ≤ n.idleGpus := by
    rw [mintMap_zero_filter supply n.usedSharedGPUsMemory hfresh _ 0 hFreal]
    have h1 : ((fittingGPUs score n pod).take pod.numGpuDevices).count
        WholeGpuIndicator ≤ (fittingGPUs score n pod).count WholeGpuIndicator :=
      (List.take_sublist _ _).count_le _
    have h2 : (fittingGPUs score n pod).count WholeGpuIndicator = n.idleGpus := by
      rw [(fittingGPUs_perm score n pod).count_eq]
      exact count_wgi_filtered n pod hinv.relGpusZero hinv.noWgiKey
    omega
  by_cases hdup : (st.allocations.map Prod.fst).contains pod.name = true
  · have hnone : stmtAllocate st
        { pod with gpuGroups := some ((mintMap supply 0
          (fittingGPUs score n pod)).take pod.numGpuDevices) } n.name = none := by
      simp only [stmtAllocate]
      rw [if_pos hdup]
    simp only [allocateSharedGPUTask, hnone, Bool.false_eq_true, if_false]
    exact hinv
  · have hsome : stmtAllocate st
        { pod with gpuGroups := some ((mintMap supply 0
          (fittingGPUs score n pod)).take pod.numGpuDevices) } n.name =
        some { st with allocations := st.allocations ++ [(pod.name, n.name)] } := by
      simp only [stmtAllocate]
      rw [if_neg hdup]
    simp only [allocateSharedGPUTask, hsome, Bool.false_eq_true, if_false]
    show NodeInv (allocateTaskOnNode n _)
    have hnodeEq : allocateTaskOnNode n
        { pod with gpuGroups := some ((mintMap supply 0
          (fittingGPUs score n pod)).take pod.numGpuDevices) } =
        ((mintMap supply 0 (fittingGPUs score n pod)).take pod.numGpuDevices).foldl
          (fun m g => addSharedTaskToGroup m pod.gpuMemory g) n := rfl
    rw [hnodeEq, mintMap_take supply (fittingGPUs score n pod) 0 pod.numGpuDevices]
    exact nodeInv_foldAlloc pod.gpuMemory _ n hinv hnd hgswgi hmemCond hidleB

theorem reachable_nodeInv (n : NodeInfo) (h : ReachableNode n) : NodeInv n := by
  induction h with
  | init name alloc label mem hlabel => exact nodeInv_newNodeInfo name alloc label mem hlabel
  | step n2 score st pod pipe supply hreach hinj hfresh hnotWgi ih =>
    exact nodeInv_step n2 score st pod pipe supply ih hinj hfresh hnotWgi

/-- C1: for every node, at every point reachable by the scheduler's
allocation operations — node construction with the time-slicing clamp
followed by any sequence of fractional-GPU allocations, including on nodes
whose advertised allocatable GPU count exceeds their physical GPU count —
the sum over all GPU groups of allocated shared GPU memory never exceeds
the node's physical GPU count times its per-GPU memory capacity. -/
theorem c1_allocated_shared_memory_bounded (n : NodeInfo) (h : ReachableNode n) :
    sumMem n.allocatedSharedGPUsMemory ≤
      n.physicalGPUCount * n.memoryOfEveryGpuOnNode :=
  nodeInv_sum_bound n (reachable_nodeInv n h)

theorem c1Supply_inj : ∀ i j, c1Supply i = c1Supply j → i = j := by
  intro i j h
  have hd : List.replicate (i + 1) 'u' = List.replicate (j + 1) 'u' :=
    congrArg String.data h
  have hl := congrArg List.length hd
  simp only [List.length_replicate] at hl
  omega

theorem c1Supply_ne_wgi : ∀ i, c1Supply i ≠ WholeGpuIndicator := by
  intro i he
  have hl : i + 1 = 2 := by
    have h2 := congrArg (fun s : String => s.data.length) he
    simp only [c1Supply] at h2
    rw [show (String.mk (List.replicate (i + 1) 'u')).data.length = i + 1 by simp] at h2
    rw [show WholeGpuIndicator.data.length = 2 by decide] at h2
    exact h2
  have hi : i = 1 := by omega
  subst hi
  exact absurd he (by decide)

/-- C1 (witness): a node constructed as 100 advertised devices over 1
physical 32600 MiB GPU, followed by one 8000 MiB fractional allocation, is
reachable, and the theorem bounds its allocated shared memory. -/
theorem c1_allocated_shared_memory_bounded_witness :
    sumMem c1Node1.allocatedSharedGPUsMemory ≤
      c1Node1.physicalGPUCount * c1Node1.memoryOfEveryGpuOnNode := by
  apply c1_allocated_shared_memory_bounded
  show ReachableNode (allocateFractionalGPUTaskToNode c2Score ⟨[], []⟩ (c2Pod 1)
    (newNodeInfo "c1n" 100 (some 1) 32600) false c1Supply).node
  refine ReachableNode.step _ c2Score ⟨[], []⟩ (c2Pod 1) false c1Supply
    (ReachableNode.init "c1n" 100 (some 1) 32600 ?_) c1Supply_inj (fun i => rfl)
    c1Supply_ne_wgi
  intro v hv
  injection hv with hv
  omega

